import Mathlib

/-!
# Token storage of `moneyloverkeychain` (package `token`)

A shallow embedding of `token/storage.go`: the three methods `Storage.Get`,
`Storage.Set` and `Storage.Delete`, over

* the keyring interface `moneyloverkeychain.Storage` (three calls on a key-value
  secret store, modelled as state-passing functions on an arbitrary store state),
* Go `error` values with their methods `Unwrap` and `Is` (`errors.Is`,
  `ctxd.WrapError`),
* `encoding/json` and `time` as the two methods use them: `json.Marshal` and
  `json.Unmarshal` at the type `auth.OAuthToken`, `Time.MarshalJSON` and
  `Time.UnmarshalJSON`.  These are library code, not code of the repository; what is
  written down here is the behaviour of Go 1.22, function by function.

Go strings are modelled as Lean strings, that is as text that is valid UTF-8; the
JSON code works on `List Char`, one character where Go handles the bytes of one
character.  A `time.Time` is modelled by the calendar reading it shows in its own zone
together with the zone's offset (what `time.Date` takes and what `Time.Date`,
`Time.Clock` and `Time.Zone` give back); the name of the zone is left out.

The properties are stated against the texts the specification speaks of: the strings
of RFC 8259 (`StringLiteral`), the timestamps of RFC 3339 (`Timestamp`) and the
token document `{"access_token":"A","expires_at":"T"}` (`tokenDocument`).
-/

namespace Keychain

/-! ## Errors -/

/-- Go `error` values as the storage sees them: the sentinel `keyring.ErrNotFound`,
an error without a cause (`errors.New`, a `*json.SyntaxError`, a `*time.ParseError`),
an error that wraps a cause (`fmt.Errorf` with `%w`, `ctxd.WrapError`,
`*json.MarshalerError`), an error of a type with a method `Is` that reports one error
as its equivalent (`func (e T) Is(target error) bool { return target == x }`), and an
error with a method `Unwrap() []error` over two errors (`errors.Join`, `fmt.Errorf`
with two `%w`). -/
inductive GoError where
  | ErrNotFound : GoError
  | errorString (text : String) : GoError
  | wrapError (text : String) (cause : GoError) : GoError
  | equivalentError (text : String) (equivalent : GoError) : GoError
  | joinError (text : String) (first second : GoError) : GoError
  deriving DecidableEq, Repr

/-- The method `Error()`: the message of an error. -/
def GoError.Error : GoError → String
  | .ErrNotFound => "secret not found in keyring"
  | .errorString text => text
  | .wrapError text _ => text
  | .equivalentError text _ => text
  | .joinError text _ _ => text

/-- The method `Unwrap() error`, as `errors.Unwrap` calls it: the cause of a wrapping
error, nothing for an error without this method. -/
def GoError.Unwrap : GoError → Option GoError
  | .wrapError _ cause => some cause
  | _ => none

/-- The method `Is(target) bool` of an error whose type has one; `false` stands for a
type without the method. -/
def GoError.Is (err target : GoError) : Bool :=
  match err with
  | .equivalentError _ equivalent => target = equivalent
  | _ => false

/-- The function `errors.Is(err, target)` for two errors that are not nil: at `err`,
and then at every error the methods `Unwrap() error` and `Unwrap() []error` lead to,
the error is compared with `target` and its method `Is`, if it has one, is asked. -/
def errorsIs (err target : GoError) : Bool :=
  if err = target then true
  else if err.Is target then true
  else
    match err with
    | .wrapError _ cause => errorsIs cause target
    | .joinError _ first second => errorsIs first target || errorsIs second target
    | _ => false

/-- The function `ctxd.WrapError(ctx, err, message)` for a non-nil `err` and a context
without fields: the message is put in front, the cause stays reachable. -/
def ctxdWrapError (err : GoError) (message : String) : GoError :=
  .wrapError (message ++ ": " ++ err.Error) err

/-! ## The keyring -/

/-- Modelled from the spec: the interface `moneyloverkeychain.Storage` (its
declaration is not among the sources; `mock/mock.go` implements it).  `Set`, `Get`
and `Delete` are calls on a store in state `σ`; each returns the store's next state
and what the Go method returns. -/
structure KeyringStorage (σ : Type) where
  Set : σ → String → String → σ × Option GoError
  Get : σ → String → σ × (String × Option GoError)
  Delete : σ → String → σ × Option GoError

/-- One call on the keyring. -/
inductive KeyringCall where
  | set (key value : String) : KeyringCall
  | get (key : String) : KeyringCall
  | delete (key : String) : KeyringCall
  deriving DecidableEq, Repr

/-- The keyring `k`, with every call appended to a log kept beside the store's state. -/
def KeyringStorage.logged {σ : Type} (k : KeyringStorage σ) :
    KeyringStorage (σ × List KeyringCall) where
  Set := fun st key value =>
    let r := k.Set st.1 key value
    ((r.1, st.2 ++ [KeyringCall.set key value]), r.2)
  Get := fun st key =>
    let r := k.Get st.1 key
    ((r.1, st.2 ++ [KeyringCall.get key]), r.2)
  Delete := fun st key =>
    let r := k.Delete st.1 key
    ((r.1, st.2 ++ [KeyringCall.delete key]), r.2)

/-- A keyring that behaves as a key-value map (the `keyring.MockInit` provider that
`test.Run` installs): `Get` and `Delete` of an absent key fail with `ErrNotFound`. -/
def mapKeyring : KeyringStorage (String → Option String) where
  Set := fun st key value => (fun k => if k = key then some value else st k, none)
  Get := fun st key =>
    match st key with
    | some value => (st, (value, none))
    | none => (st, ("", some GoError.ErrNotFound))
  Delete := fun st key =>
    match st key with
    | some _ => (fun k => if k = key then none else st k, none)
    | none => (st, some GoError.ErrNotFound)

/-! ## Times and tokens -/

/-- A `time.Time`, by its reading in its own zone: the calendar date and clock time,
the nanosecond within the second, and the zone's offset in seconds east of UTC. -/
structure Time where
  year : Int
  month : Nat
  day : Nat
  hour : Nat
  minute : Nat
  second : Nat
  nsec : Nat
  offset : Int
  deriving DecidableEq, Repr

/-- The zero `time.Time{}`: January 1, year 1, 00:00:00 UTC. -/
def Time.zero : Time :=
  { year := 1, month := 1, day := 1, hour := 0, minute := 0, second := 0, nsec := 0, offset := 0 }

/-- The function `isLeap` of package `time`. -/
def isLeap (year : Int) : Bool :=
  year % 4 = 0 ∧ (year % 100 ≠ 0 ∨ year % 400 = 0)

/-- The table `daysBefore` of package `time`: the days of a common year before a month
begins, with the days before the next January last. -/
def daysBefore : List Nat :=
  [0, 31, 31 + 28, 31 + 28 + 31, 31 + 28 + 31 + 30, 31 + 28 + 31 + 30 + 31,
    31 + 28 + 31 + 30 + 31 + 30, 31 + 28 + 31 + 30 + 31 + 30 + 31,
    31 + 28 + 31 + 30 + 31 + 30 + 31 + 31, 31 + 28 + 31 + 30 + 31 + 30 + 31 + 31 + 30,
    31 + 28 + 31 + 30 + 31 + 30 + 31 + 31 + 30 + 31,
    31 + 28 + 31 + 30 + 31 + 30 + 31 + 31 + 30 + 31 + 30,
    31 + 28 + 31 + 30 + 31 + 30 + 31 + 31 + 30 + 31 + 30 + 31]

/-- The function `daysIn` of package `time`: the number of days of a month, for a month
from 1 to 12. -/
def daysIn (month : Nat) (year : Int) : Nat :=
  if month = 2 ∧ isLeap year then 29
  else daysBefore.getD month 0 - daysBefore.getD (month - 1) 0

/-- The readings a `time.Time` can show: a month of the year, a day of that month, a
clock time below 24:00:00 and a nanosecond below one second. -/
def Time.Valid (t : Time) : Prop :=
  1 ≤ t.month ∧ t.month ≤ 12 ∧ 1 ≤ t.day ∧ t.day ≤ daysIn t.month t.year ∧
    t.hour < 24 ∧ t.minute < 60 ∧ t.second < 60 ∧ t.nsec < 1000000000

instance (t : Time) : Decidable t.Valid := by
  unfold Time.Valid; infer_instance

/-- Days from 0000-03-01 to the given date of the proleptic Gregorian calendar. -/
def daysFromCivil (year : Int) (month day : Nat) : Int :=
  let y : Int := if month ≤ 2 then year - 1 else year
  let m : Int := if month ≤ 2 then (month : Int) + 9 else (month : Int) - 3
  365 * y + y / 4 - y / 100 + y / 400 + (153 * m + 2) / 5 + (day : Int) - 1

/-- The instant a time denotes: seconds since 0000-03-01T00:00:00Z, and the
nanosecond within that second.  Two times are the same instant (`Time.Equal`) when
these agree, whatever their zones. -/
def Time.instant (t : Time) : Int × Nat :=
  (daysFromCivil t.year t.month t.day * 86400 + (t.hour : Int) * 3600 + (t.minute : Int) * 60
      + (t.second : Int) - t.offset, t.nsec)

/-- Modelled from the spec: the struct `auth.OAuthToken` of `moneyloverapi` (not among
the sources), with its two JSON fields `access_token` and `expires_at`, in this
order. -/
structure OAuthToken where
  AccessToken : String
  ExpiresAt : Time
  deriving DecidableEq, Repr

/-- The zero value `auth.OAuthToken{}`. -/
def OAuthToken.zero : OAuthToken :=
  { AccessToken := "", ExpiresAt := Time.zero }

/-! ## Package `time`: writing a time -/

/-- The helper `utod` of `appendInt`: the character of a decimal digit. -/
def utod (u : Nat) : Char := Char.ofNat (48 + u)

/-- The function `appendInt` of package `time`: `x` in decimal, zero-padded to `width`,
after a minus sign when negative. -/
def appendInt (x : Int) (width : Nat) : List Char :=
  let u := x.natAbs
  let sign : List Char := if x < 0 then ['-'] else []
  if width = 2 ∧ u < 100 then sign ++ [utod (u / 10), utod (u % 10)]
  else if width = 4 ∧ u < 10000 then
    sign ++ [utod (u / 1000), utod (u / 100 % 10), utod (u / 10 % 10), utod (u % 10)]
  else
    let digits := Nat.toDigits 10 u
    sign ++ List.replicate (width - digits.length) '0' ++ digits

/-- The loop of `appendNano` that cuts the trailing zeros. -/
def trimZeros (b : List Char) : List Char :=
  (b.reverse.dropWhile (fun c => c = '0')).reverse

/-- The function `appendNano` of package `time` at the layout element `.999999999`:
nothing for a whole second, else a period and the nine digits of the nanosecond
without their trailing zeros. -/
def appendNano (nanosec : Nat) : List Char :=
  if nanosec = 0 then []
  else
    let b := trimZeros ('.' :: appendInt nanosec 9)
    if b.getLast? = some '.' then b.dropLast else b

/-- The method `Time.appendFormatRFC3339` with `nanos` set (the layout `RFC3339Nano`):
date, `T`, clock, the fraction of `appendNano`, and the zone as `Z` for offset zero
or as sign, hours, colon and minutes of the offset, its seconds dropped. -/
def Time.appendFormatRFC3339 (t : Time) : List Char :=
  appendInt t.year 4 ++ ['-'] ++ appendInt t.month 2 ++ ['-'] ++ appendInt t.day 2 ++ ['T']
    ++ appendInt t.hour 2 ++ [':'] ++ appendInt t.minute 2 ++ [':'] ++ appendInt t.second 2
    ++ appendNano t.nsec
    ++ (if t.offset = 0 then ['Z']
        else
          let zone := Int.tdiv t.offset 60
          let sign : Char := if zone < 0 then '-' else '+'
          let zone := zone.natAbs
          [sign] ++ appendInt ((zone / 60 : Nat) : Int) 2 ++ [':']
            ++ appendInt ((zone % 60 : Nat) : Int) 2)

/-- The helper `num2` of the strict RFC 3339 checks: the value of two digit bytes. -/
def num2 (b : List Char) : Nat :=
  (10 * ((b.getD 0 '0').toNat + 256 - 48) + ((b.getD 1 '0').toNat + 256 - 48)) % 256

/-- The method `Time.appendStrictRFC3339`: the text of `appendFormatRFC3339`, and an error
when the year is not written with exactly four digits or the zone's hour is above 23. -/
def Time.appendStrictRFC3339 (t : Time) : List Char × Option GoError :=
  let b := t.appendFormatRFC3339
  if b.get? 4 ≠ some '-' then
    (b, some (.errorString "year outside of range [0,9999]"))
  else if b.getLast? ≠ some 'Z' then
    let c := b.getD (b.length - 6) ' '
    if ('0' ≤ c ∧ c ≤ '9') ∨ num2 (b.drop (b.length - 5)) ≥ 24 then
      (b, some (.errorString "timezone hour outside of range [0,23]"))
    else (b, none)
  else (b, none)

/-- The method `Time.MarshalJSON`: the strict RFC 3339 text between double quotes. -/
def Time.MarshalJSON (t : Time) : Except GoError (List Char) :=
  match t.appendStrictRFC3339 with
  | (b, none) => .ok (['"'] ++ b ++ ['"'])
  | (_, some err) => .error (.errorString ("Time.MarshalJSON: " ++ err.Error))

/-! ## Package `encoding/json`: writing a token -/

/-- The table `hex` of package `encoding/json`. -/
def hex (n : Nat) : Char :=
  if n < 10 then Char.ofNat (48 + n) else Char.ofNat (87 + n)

/-- The table `htmlSafeSet`: the ASCII characters written as they are, which are
those from the space on except the double quote, `&`, `<`, `>` and the backslash. -/
def htmlSafeSet (c : Char) : Bool :=
  32 ≤ c.toNat ∧ c.toNat < 128 ∧ c ≠ '"' ∧ c ≠ '&' ∧ c ≠ '<' ∧ c ≠ '>' ∧ c ≠ '\\'

/-- One round of the loop of `appendString` (with `escapeHTML` set): what is written
for one character of the source. -/
def appendStringChar (c : Char) : List Char :=
  if c.toNat < 128 then
    if htmlSafeSet c then [c]
    else if c = '\\' ∨ c = '"' then ['\\', c]
    else if c = Char.ofNat 8 then ['\\', 'b']
    else if c = Char.ofNat 12 then ['\\', 'f']
    else if c = '\n' then ['\\', 'n']
    else if c = '\r' then ['\\', 'r']
    else if c = '\t' then ['\\', 't']
    else ['\\', 'u', '0', '0', hex (c.toNat / 16), hex (c.toNat % 16)]
  else if c = Char.ofNat 0x2028 ∨ c = Char.ofNat 0x2029 then
    ['\\', 'u', '2', '0', '2', hex (c.toNat % 16)]
  else [c]

/-- The escaped text `appendString` writes between the two quotes. -/
def escapeString (src : List Char) : List Char :=
  (src.map appendStringChar).flatten

/-- The function `appendString` of package `encoding/json` (with `escapeHTML` set): a
string as a JSON string literal. -/
def appendString (src : List Char) : List Char :=
  ['"'] ++ escapeString src ++ ['"']

/-- The call `json.Marshal(token)` for a token: the two fields in the order of the
struct, each name followed by its value, the string by `appendString` and the time by
its `MarshalJSON`, whose text holds nothing for `json.Marshal` to compact or escape;
an error of `MarshalJSON` comes back as a `*json.MarshalerError` around it. -/
def jsonMarshal (token : OAuthToken) : Except GoError String :=
  match token.ExpiresAt.MarshalJSON with
  | .error err =>
    .error (.wrapError ("json: error calling MarshalJSON for type time.Time: " ++ err.Error) err)
  | .ok b =>
    .ok (String.mk ("\x7b\"access_token\":".data ++ appendString token.AccessToken.data
      ++ ",\"expires_at\":".data ++ b ++ "\x7d".data))

/-! ## Package `encoding/json`: the scanner -/

/-- The first byte of the UTF-8 encoding of a character. -/
def firstByte (c : Char) : Nat :=
  if c.toNat < 0x80 then c.toNat
  else if c.toNat < 0x800 then 0xC0 + c.toNat / 64
  else if c.toNat < 0x10000 then 0xE0 + c.toNat / 4096
  else 0xF0 + c.toNat / 262144

/-- The function `quoteChar` of the scanner, on the byte the scanner stopped at (the
first byte of the character): the byte as a single-quoted character literal, written
as `strconv.Quote` writes the rune of that value. -/
def quoteChar (c : Char) : String :=
  let b := firstByte c
  if b = 39 then String.mk [Char.ofNat 39, '\\', Char.ofNat 39, Char.ofNat 39]
  else if b = 34 then String.mk [Char.ofNat 39, '"', Char.ofNat 39]
  else
    let body : List Char :=
      if b = 92 then ['\\', '\\']
      else if (32 ≤ b ∧ b < 127) ∨ (161 ≤ b ∧ b ≤ 255 ∧ b ≠ 173) then [Char.ofNat b]
      else if b = 7 then ['\\', 'a']
      else if b = 8 then ['\\', 'b']
      else if b = 12 then ['\\', 'f']
      else if b = 10 then ['\\', 'n']
      else if b = 13 then ['\\', 'r']
      else if b = 9 then ['\\', 't']
      else if b = 11 then ['\\', 'v']
      else if b < 32 ∨ b = 127 then ['\\', 'x', hex (b / 16), hex (b % 16)]
      else ['\\', 'u', '0', '0', hex (b / 16), hex (b % 16)]
    String.mk ([Char.ofNat 39] ++ body ++ [Char.ofNat 39])

/-- The constants `parseObjectKey`, `parseObjectValue`, `parseArrayValue`: what the
scanner is in the middle of. -/
inductive ParseState where
  | parseObjectKey
  | parseObjectValue
  | parseArrayValue
  deriving DecidableEq, Repr

/-- The state functions of the scanner, the values of its field `step`. -/
inductive ScanStep where
  | stateBeginValueOrEmpty | stateBeginValue | stateBeginStringOrEmpty | stateBeginString
  | stateEndValue | stateEndTop
  | stateInString | stateInStringEsc
  | stateInStringEscU | stateInStringEscU1 | stateInStringEscU12 | stateInStringEscU123
  | stateNeg | state1 | state0 | stateDot | stateDot0 | stateE | stateESign | stateE0
  | stateT | stateTr | stateTru | stateF | stateFa | stateFal | stateFals
  | stateN | stateNu | stateNul
  | stateError
  deriving DecidableEq, Repr

/-- The struct `scanner`: the state function to run next, whether the top-level value
is complete, the stack of what is being parsed (innermost first) and the error. -/
structure Scanner where
  step : ScanStep
  endTop : Bool
  parseState : List ParseState
  err : Option GoError
  deriving DecidableEq, Repr

/-- The method `scanner.reset`. -/
def Scanner.reset : Scanner :=
  { step := .stateBeginValue, endTop := false, parseState := [], err := none }

/-- The function `isSpace` of the scanner. -/
def isSpace (c : Char) : Bool :=
  c = ' ' ∨ c = '\t' ∨ c = '\r' ∨ c = '\n'

/-- The method `scanner.error`: a `*SyntaxError` naming the byte and the context. -/
def Scanner.error (s : Scanner) (c : Char) (context : String) : Scanner :=
  { s with step := .stateError,
           err := some (.errorString ("invalid character " ++ quoteChar c ++ " " ++ context)) }

/-- The constant `maxNestingDepth`. -/
def maxNestingDepth : Nat := 10000

/-- The method `scanner.pushParseState`. -/
def Scanner.pushParseState (s : Scanner) (c : Char) (newParseState : ParseState) : Scanner :=
  let s1 := { s with parseState := newParseState :: s.parseState }
  if s1.parseState.length ≤ maxNestingDepth then s1 else s1.error c "exceeded max depth"

/-- The method `scanner.popParseState`. -/
def Scanner.popParseState (s : Scanner) : Scanner :=
  let rest := s.parseState.tail
  if rest = [] then { s with parseState := rest, step := .stateEndTop, endTop := true }
  else { s with parseState := rest, step := .stateEndValue }

/-- The state function `stateEndTop`: only space may follow the top-level value. -/
def stateEndTop (s : Scanner) (c : Char) : Scanner :=
  if isSpace c then s else s.error c "after top-level value"

/-- The state function `stateEndValue`: after a value, such as after a key, an object
member or an array element. -/
def stateEndValue (s : Scanner) (c : Char) : Scanner :=
  match s.parseState with
  | [] => stateEndTop { s with step := .stateEndTop, endTop := true } c
  | ps :: rest =>
    if isSpace c then { s with step := .stateEndValue }
    else
      match ps with
      | .parseObjectKey =>
        if c = ':' then { s with parseState := .parseObjectValue :: rest, step := .stateBeginValue }
        else s.error c "after object key"
      | .parseObjectValue =>
        if c = ',' then { s with parseState := .parseObjectKey :: rest, step := .stateBeginString }
        else if c = '}' then s.popParseState
        else s.error c "after object key:value pair"
      | .parseArrayValue =>
        if c = ',' then { s with step := .stateBeginValue }
        else if c = ']' then s.popParseState
        else s.error c "after array element"

/-- The state function `stateBeginValue`: at the beginning of a value. -/
def stateBeginValue (s : Scanner) (c : Char) : Scanner :=
  if isSpace c then s
  else if c = '{' then
    Scanner.pushParseState { s with step := .stateBeginStringOrEmpty } c .parseObjectKey
  else if c = '[' then
    Scanner.pushParseState { s with step := .stateBeginValueOrEmpty } c .parseArrayValue
  else if c = '"' then { s with step := .stateInString }
  else if c = '-' then { s with step := .stateNeg }
  else if c = '0' then { s with step := .state0 }
  else if c = 't' then { s with step := .stateT }
  else if c = 'f' then { s with step := .stateF }
  else if c = 'n' then { s with step := .stateN }
  else if '1' ≤ c ∧ c ≤ '9' then { s with step := .state1 }
  else s.error c "looking for beginning of value"

/-- The state function `stateBeginValueOrEmpty`: after `[`. -/
def stateBeginValueOrEmpty (s : Scanner) (c : Char) : Scanner :=
  if isSpace c then s
  else if c = ']' then stateEndValue s c
  else stateBeginValue s c

/-- The state function `stateBeginString`: after `,` in an object. -/
def stateBeginString (s : Scanner) (c : Char) : Scanner :=
  if isSpace c then s
  else if c = '"' then { s with step := .stateInString }
  else s.error c "looking for beginning of object key string"

/-- The state function `stateBeginStringOrEmpty`: after `{`. -/
def stateBeginStringOrEmpty (s : Scanner) (c : Char) : Scanner :=
  if isSpace c then s
  else if c = '}' then
    stateEndValue { s with parseState := .parseObjectValue :: s.parseState.tail } c
  else stateBeginString s c

/-- Whether a byte is a hexadecimal digit, as the `\u` states test it. -/
def isHexDigit (c : Char) : Bool :=
  ('0' ≤ c ∧ c ≤ '9') ∨ ('a' ≤ c ∧ c ≤ 'f') ∨ ('A' ≤ c ∧ c ≤ 'F')

/-- Whether a byte is a decimal digit. -/
def isDigitChar (c : Char) : Bool :=
  '0' ≤ c ∧ c ≤ '9'

/-- One of the state functions `stateT` ... `stateNul`: the next letter of a literal. -/
def stateLiteral (s : Scanner) (c expected : Char) (next : ScanStep) (context : String) :
    Scanner :=
  if c = expected then { s with step := next } else s.error c context

/-- The call `s.step(s, c)`: the scanner after one more byte, by its state function. -/
def Scanner.apply (s : Scanner) (c : Char) : Scanner :=
  match s.step with
  | .stateBeginValueOrEmpty => stateBeginValueOrEmpty s c
  | .stateBeginValue => stateBeginValue s c
  | .stateBeginStringOrEmpty => stateBeginStringOrEmpty s c
  | .stateBeginString => stateBeginString s c
  | .stateEndValue => stateEndValue s c
  | .stateEndTop => stateEndTop s c
  | .stateInString =>
    if c = '"' then { s with step := .stateEndValue }
    else if c = '\\' then { s with step := .stateInStringEsc }
    else if c.toNat < 0x20 then s.error c "in string literal"
    else s
  | .stateInStringEsc =>
    if c = 'b' ∨ c = 'f' ∨ c = 'n' ∨ c = 'r' ∨ c = 't' ∨ c = '\\' ∨ c = '/' ∨ c = '"' then
      { s with step := .stateInString }
    else if c = 'u' then { s with step := .stateInStringEscU }
    else s.error c "in string escape code"
  | .stateInStringEscU =>
    if isHexDigit c then { s with step := .stateInStringEscU1 }
    else s.error c "in \\u hexadecimal character escape"
  | .stateInStringEscU1 =>
    if isHexDigit c then { s with step := .stateInStringEscU12 }
    else s.error c "in \\u hexadecimal character escape"
  | .stateInStringEscU12 =>
    if isHexDigit c then { s with step := .stateInStringEscU123 }
    else s.error c "in \\u hexadecimal character escape"
  | .stateInStringEscU123 =>
    if isHexDigit c then { s with step := .stateInString }
    else s.error c "in \\u hexadecimal character escape"
  | .stateNeg =>
    if c = '0' then { s with step := .state0 }
    else if '1' ≤ c ∧ c ≤ '9' then { s with step := .state1 }
    else s.error c "in numeric literal"
  | .state1 =>
    if isDigitChar c then { s with step := .state1 }
    else if c = '.' then { s with step := .stateDot }
    else if c = 'e' ∨ c = 'E' then { s with step := .stateE }
    else stateEndValue s c
  | .state0 =>
    if c = '.' then { s with step := .stateDot }
    else if c = 'e' ∨ c = 'E' then { s with step := .stateE }
    else stateEndValue s c
  | .stateDot =>
    if isDigitChar c then { s with step := .stateDot0 }
    else s.error c "after decimal point in numeric literal"
  | .stateDot0 =>
    if isDigitChar c then s
    else if c = 'e' ∨ c = 'E' then { s with step := .stateE }
    else stateEndValue s c
  | .stateE =>
    if c = '+' ∨ c = '-' then { s with step := .stateESign }
    else if isDigitChar c then { s with step := .stateE0 }
    else s.error c "in exponent of numeric literal"
  | .stateESign =>
    if isDigitChar c then { s with step := .stateE0 }
    else s.error c "in exponent of numeric literal"
  | .stateE0 =>
    if isDigitChar c then s else stateEndValue s c
  | .stateT => stateLiteral s c 'r' .stateTr "in literal true (expecting 'r')"
  | .stateTr => stateLiteral s c 'u' .stateTru "in literal true (expecting 'u')"
  | .stateTru => stateLiteral s c 'e' .stateEndValue "in literal true (expecting 'e')"
  | .stateF => stateLiteral s c 'a' .stateFa "in literal false (expecting 'a')"
  | .stateFa => stateLiteral s c 'l' .stateFal "in literal false (expecting 'l')"
  | .stateFal => stateLiteral s c 's' .stateFals "in literal false (expecting 's')"
  | .stateFals => stateLiteral s c 'e' .stateEndValue "in literal false (expecting 'e')"
  | .stateN => stateLiteral s c 'u' .stateNu "in literal null (expecting 'u')"
  | .stateNu => stateLiteral s c 'l' .stateNul "in literal null (expecting 'l')"
  | .stateNul => stateLiteral s c 'l' .stateEndValue "in literal null (expecting 'l')"
  | .stateError => s

/-- The method `scanner.eof`: the error at the end of the input, if any.  A value that
is not complete yet is given one space to complete. -/
def Scanner.eof (s : Scanner) : Option GoError :=
  if s.err.isSome then s.err
  else if s.endTop then none
  else
    let s1 := s.apply ' '
    if s1.endTop then none
    else if s1.err.isSome then s1.err
    else some (.errorString "unexpected end of JSON input")

/-- The function `checkValid`: the scanner run over the whole input; the syntax error
of the input, or none. -/
def checkValid (data : List Char) : Option GoError :=
  (data.foldl Scanner.apply Scanner.reset).eof

/-! ## Package `time`: reading a time -/

/-- The bytes of the UTF-8 encoding of a character. -/
def utf8Bytes (c : Char) : List Nat :=
  let n := c.toNat
  if n < 0x80 then [n]
  else if n < 0x800 then [0xC0 + n / 64, 0x80 + n % 64]
  else if n < 0x10000 then [0xE0 + n / 4096, 0x80 + n / 64 % 64, 0x80 + n % 64]
  else [0xF0 + n / 262144, 0x80 + n / 4096 % 64, 0x80 + n / 64 % 64, 0x80 + n % 64]

/-- The function `quote` of package `time`, one character at a time: a double quote or
backslash gets a backslash, a control or non-ASCII character is written byte by byte
as `\x` and two hexadecimal digits. -/
def timeQuoteChar (c : Char) : List Char :=
  if 0x80 ≤ c.toNat ∨ c.toNat < 0x20 then
    ((utf8Bytes c).map (fun b => ['\\', 'x', hex (b / 16), hex (b % 16)])).flatten
  else if c = '"' ∨ c = '\\' then ['\\', c]
  else [c]

/-- The function `quote` of package `time`. -/
def timeQuote (s : List Char) : String :=
  String.mk (['"'] ++ (s.map timeQuoteChar).flatten ++ ['"'])

/-- The layout `time.RFC3339`. -/
def layoutRFC3339 : List Char := "2006-01-02T15:04:05Z07:00".data

/-- A `*time.ParseError` for the layout `RFC3339`, as the error with its message: with
no `message`, which element of the value could not be parsed as which element of the
layout; else the value and the message. -/
def parseError (value layoutElem valueElem : List Char) (message : String) : GoError :=
  if message = "" then
    .errorString ("parsing time " ++ timeQuote value ++ " as " ++ timeQuote layoutRFC3339
      ++ ": cannot parse " ++ timeQuote valueElem ++ " as " ++ timeQuote layoutElem)
  else .errorString ("parsing time " ++ timeQuote value ++ message)

/-- The value of a run of decimal digits. -/
def digitsValue (s : List Char) : Nat :=
  s.foldl (fun x c => x * 10 + (c.toNat - 48)) 0

/-- The closure `parseUint` of `parseRFC3339`: the value of `s` when `s` holds only
decimal digits and the value lies in `min..max`. -/
def parseUint (s : List Char) (min max : Nat) : Option Nat :=
  if s.all isDigitChar then
    let x := digitsValue s
    if x < min ∨ max < x then none else some x
  else none

/-- The function `parseNanoseconds` on a value that starts with the separator and has
digits up to `nbytes`: the digits after the separator, at most nine of them, scaled to
nanoseconds. -/
def parseNanoseconds (value : List Char) (nbytes : Nat) : Nat :=
  let nbytes := if nbytes > 10 then 10 else nbytes
  digitsValue ((value.take nbytes).drop 1) * 10 ^ (10 - nbytes)

/-- The zone part of `parseRFC3339`: `Z`, or a sign, two digits of hours up to 23, a
colon and two digits of minutes up to 59; the offset in seconds. -/
def parseZoneRFC3339 (s : List Char) : Option Int :=
  if s = ['Z'] then some 0
  else if s.length ≠ 6 then none
  else
    match parseUint ((s.drop 1).take 2) 0 23, parseUint ((s.drop 4).take 2) 0 59 with
    | some hr, some mm =>
      if (s.get? 0 = some '-' ∨ s.get? 0 = some '+') ∧ s.get? 3 = some ':' then
        let zoneOffset : Int := (((hr * 60 + mm) * 60 : Nat) : Int)
        some (if s.get? 0 = some '-' then zoneOffset * -1 else zoneOffset)
      else none
    | _, _ => none

/-- The fraction part of `parseRFC3339`: after a period that a digit follows, the run
of digits is read as nanoseconds; the nanoseconds and the rest of the text. -/
def parseFractionRFC3339 (s : List Char) : Nat × List Char :=
  if s.length ≥ 2 ∧ s.get? 0 = some '.' ∧ (s.get? 1).any isDigitChar then
    (parseNanoseconds s (1 + ((s.drop 1).takeWhile isDigitChar).length),
      s.drop (1 + ((s.drop 1).takeWhile isDigitChar).length))
  else (0, s)

/-- The function `parseRFC3339` of package `time`: the fast path for a text of the shape
`2006-01-02T15:04:05`, an optional fraction, and a zone, with every field in range. -/
def parseRFC3339 (s : List Char) : Option Time :=
  if s.length < 19 then none
  else
    match parseUint (s.take 4) 0 9999, parseUint ((s.drop 5).take 2) 1 12 with
    | some year, some month =>
      match parseUint ((s.drop 8).take 2) 1 (daysIn month year),
          parseUint ((s.drop 11).take 2) 0 23, parseUint ((s.drop 14).take 2) 0 59,
          parseUint ((s.drop 17).take 2) 0 59 with
      | some day, some hour, some min, some sec =>
        if s.get? 4 = some '-' ∧ s.get? 7 = some '-' ∧ s.get? 10 = some 'T'
            ∧ s.get? 13 = some ':' ∧ s.get? 16 = some ':' then
          match parseZoneRFC3339 (parseFractionRFC3339 (s.drop 19)).2 with
          | some zoneOffset =>
            some { year := year, month := month, day := day, hour := hour, minute := min,
                   second := sec, nsec := (parseFractionRFC3339 (s.drop 19)).1,
                   offset := zoneOffset }
          | none => none
        else none
      | _, _, _, _ => none
    | _, _ => none

/-- The function `getnum` of package `time`: a number of two digits, or of one digit
when the field is not of fixed width, and the rest of the text. -/
def getnum (s : List Char) ( fixed : Bool) : Option (Nat × List Char) :=
  match s with
  | [] => none
  | a :: rest =>
    if isDigitChar a then
      match rest with
      | [] => if fixed then none else some (a.toNat - 48, rest)
      | b :: rest2 =>
        if isDigitChar b then some ((a.toNat - 48) * 10 + (b.toNat - 48), rest2)
        else if fixed then none
        else some (a.toNat - 48, rest)
    else none

/-- The zone element `Z07:00` of `time.Parse`: `Z`, or a sign, two digits, a colon and
two digits, the hours up to 24 and the minutes up to 60; the offset and the rest. -/
def parseZoneLayout (avalue value : List Char) : Except GoError (Int × List Char) :=
  match value with
  | 'Z' :: rest => .ok (0, rest)
  | _ =>
    let bad : Except GoError (Int × List Char) :=
      .error (parseError avalue "Z07:00".data value "")
    if value.length < 6 then bad
    else if value.get? 3 ≠ some ':' then bad
    else
      match getnum ((value.drop 1).take 2) true with
      | none => bad
      | some (hr, _) =>
        match getnum ((value.drop 4).take 2) true with
        | none =>
          if hr > 24 then
            .error (parseError avalue [] [] ": time zone offset hour out of range")
          else bad
        | some (mm, _) =>
          if mm > 60 then
            .error (parseError avalue [] [] ": time zone offset minute out of range")
          else if hr > 24 then
            .error (parseError avalue [] [] ": time zone offset hour out of range")
          else
            let zoneOffset : Int := (((hr * 60 + mm) * 60 : Nat) : Int)
            if value.get? 0 = some '+' then .ok (zoneOffset, value.drop 6)
            else if value.get? 0 = some '-' then .ok (-zoneOffset, value.drop 6)
            else bad

/-- The seconds element `05` of `time.Parse` with the fraction that may follow it though
the layout has none: the second, the nanosecond and the rest. -/
def parseSecondLayout (avalue value : List Char) : Except GoError (Nat × Nat × List Char) :=
  match getnum value true with
  | none => .error (parseError avalue "05".data value "")
  | some (sec, value1) =>
    if 60 ≤ sec then .error (parseError avalue [] [] ": second out of range")
    else if value1.length ≥ 2 ∧ (value1.get? 0 = some '.' ∨ value1.get? 0 = some ',')
        ∧ (value1.get? 1).any isDigitChar then
      let n := 1 + ((value1.drop 1).takeWhile isDigitChar).length
      .ok (sec, parseNanoseconds value1 n, value1.drop n)
    else .ok (sec, 0, value1)

/-- The clock and zone elements `15:04:05Z07:00` of `time.Parse`, after the `T`. -/
def parseClockLayout (avalue value : List Char) :
    Except GoError (Nat × Nat × Nat × Nat × Int × List Char) :=
  match getnum value false with
  | none => .error (parseError avalue "15".data value "")
  | some (hour, value1) =>
    if 24 ≤ hour then .error (parseError avalue [] [] ": hour out of range")
    else
      match value1 with
      | ':' :: value2 =>
        match getnum value2 true with
        | none => .error (parseError avalue "04".data value2 "")
        | some (min, value3) =>
          if 60 ≤ min then .error (parseError avalue [] [] ": minute out of range")
          else
            match value3 with
            | ':' :: value4 =>
              match parseSecondLayout avalue value4 with
              | .error err => .error err
              | .ok (sec, nsec, value5) =>
                match parseZoneLayout avalue value5 with
                | .error err => .error err
                | .ok (zoneOffset, value6) => .ok (hour, min, sec, nsec, zoneOffset, value6)
            | _ => .error (parseError avalue [':'] value3 "")
      | _ => .error (parseError avalue [':'] value1 "")

/-- The function `time.Parse` at the layout `RFC3339`: the elements of the layout one
after the other, each range checked where `Parse` checks it, nothing left over at the
end, and the day checked against the month last. -/
def timeParse (avalue : List Char) : Except GoError Time :=
  if avalue.length < 4 ∨ ¬ (avalue.head?.any isDigitChar) then
    .error (parseError avalue "2006".data avalue "")
  else if ¬ ((avalue.take 4).all isDigitChar) then
    .error (parseError avalue "2006".data avalue "")
  else
    let year := digitsValue (avalue.take 4)
    match avalue.drop 4 with
    | '-' :: value1 =>
      match getnum value1 true with
      | none => .error (parseError avalue "01".data value1 "")
      | some (month, value2) =>
        if month = 0 ∨ 12 < month then .error (parseError avalue [] [] ": month out of range")
        else
          match value2 with
          | '-' :: value3 =>
            match getnum value3 true with
            | none => .error (parseError avalue "02".data value3 "")
            | some (day, value4) =>
              match value4 with
              | 'T' :: value5 =>
                match parseClockLayout avalue value5 with
                | .error err => .error err
                | .ok (hour, min, sec, nsec, zoneOffset, value6) =>
                  if value6 ≠ [] then
                    .error (parseError avalue [] value6 (": extra text: " ++ timeQuote value6))
                  else if day < 1 ∨ day > daysIn month year then
                    .error (parseError avalue [] [] ": day out of range")
                  else
                    .ok { year := year, month := month, day := day, hour := hour, minute := min,
                          second := sec, nsec := nsec, offset := zoneOffset }
              | _ => .error (parseError avalue ['T'] value4 "")
          | _ => .error (parseError avalue ['-'] value2 "")
    | value1 => .error (parseError avalue ['-'] value1 "")

/-- The function `parseStrictRFC3339` of package `time`: the fast path, and `time.Parse`
for what the fast path does not take (the stricter checks that follow a successful
`Parse` are switched off in the library). -/
def parseStrictRFC3339 (b : List Char) : Except GoError Time :=
  match parseRFC3339 b with
  | some t => .ok t
  | none => timeParse b

/-- The method `Time.UnmarshalJSON`: `null` changes nothing; a text between double quotes
is parsed, without unescaping, and the time set to the result, or to the zero time with
the parser's error; anything else is an error. -/
def Time.UnmarshalJSON (t : Time) (data : List Char) : Time × Option GoError :=
  if data = "null".data then (t, none)
  else if data.length < 2 ∨ data.head? ≠ some '"' ∨ data.getLast? ≠ some '"' then
    (t, some (.errorString "Time.UnmarshalJSON: input is not a JSON string"))
  else
    match parseStrictRFC3339 (data.drop 1).dropLast with
    | .ok t1 => (t1, none)
    | .error err => (Time.zero, some err)

/-! ## Package `encoding/json`: reading a token -/

/-- The value of a hexadecimal digit, as `getu4` reads it. -/
def hexValue (c : Char) : Option Nat :=
  if '0' ≤ c ∧ c ≤ '9' then some (c.toNat - 48)
  else if 'a' ≤ c ∧ c ≤ 'f' then some (c.toNat - 87)
  else if 'A' ≤ c ∧ c ≤ 'F' then some (c.toNat - 55)
  else none

/-- The function `getu4`, on the four characters after `\u`: the code unit they spell. -/
def getu4 (a b c d : Char) : Option Nat :=
  match hexValue a, hexValue b, hexValue c, hexValue d with
  | some x, some y, some z, some w => some (((x * 16 + y) * 16 + z) * 16 + w)
  | _, _, _, _ => none

/-- The code unit of a `\u` escape at the head of the text, if one stands there. -/
def getu4At (s : List Char) : Option Nat :=
  match s with
  | '\\' :: 'u' :: a :: b :: c :: d :: _ => getu4 a b c d
  | _ => none

/-- The function `utf16.IsSurrogate`. -/
def isSurrogate (r : Nat) : Bool :=
  0xD800 ≤ r ∧ r < 0xE000

/-- The function `utf16.DecodeRune`: the character of a surrogate pair, if it is one. -/
def utf16DecodeRune (r1 r2 : Nat) : Option Char :=
  if 0xD800 ≤ r1 ∧ r1 < 0xDC00 ∧ 0xDC00 ≤ r2 ∧ r2 < 0xE000 then
    some (Char.ofNat ((r1 - 0xD800) * 1024 + (r2 - 0xDC00) + 0x10000))
  else none

/-- The loop of `unquoteBytes`, over the text between the quotes, the first `skip`
characters of which are already consumed: escapes are resolved, a `\u` escape to its
character, two of them that form a surrogate pair to one character (the second is
consumed with the first), a surrogate without its partner to U+FFFD; a bare quote or
control character fails. -/
def unquoteBody : Nat → List Char → Option (List Char)
  | _, [] => some []
  | skip + 1, _ :: rest => unquoteBody skip rest
  | 0, c :: rest =>
    if c = '\\' then
      match rest with
      | [] => none
      | e :: rest1 =>
        if e = 'u' then
          match rest1 with
          | a :: b :: c1 :: d :: rest2 =>
            match getu4 a b c1 d with
            | none => none
            | some rr =>
              if isSurrogate rr then
                match (getu4At rest2).bind (utf16DecodeRune rr) with
                | some dec => (unquoteBody 6 rest2).map (fun out => dec :: out)
                | none => (unquoteBody 0 rest2).map (fun out => Char.ofNat 0xFFFD :: out)
              else (unquoteBody 0 rest2).map (fun out => Char.ofNat rr :: out)
          | _ => none
        else if e = '"' ∨ e = '\\' ∨ e = '/' ∨ e = Char.ofNat 39 then
          (unquoteBody 0 rest1).map (fun out => e :: out)
        else if e = 'b' then (unquoteBody 0 rest1).map (fun out => Char.ofNat 8 :: out)
        else if e = 'f' then (unquoteBody 0 rest1).map (fun out => Char.ofNat 12 :: out)
        else if e = 'n' then (unquoteBody 0 rest1).map (fun out => '\n' :: out)
        else if e = 'r' then (unquoteBody 0 rest1).map (fun out => '\r' :: out)
        else if e = 't' then (unquoteBody 0 rest1).map (fun out => '\t' :: out)
        else none
    else if c = '"' ∨ c.toNat < 0x20 then none
    else (unquoteBody 0 rest).map (fun out => c :: out)

/-- The function `unquoteBytes`: the string a JSON string literal spells. -/
def unquoteBytes (s : List Char) : Option (List Char) :=
  if s.length < 2 ∨ s.head? ≠ some '"' ∨ s.getLast? ≠ some '"' then none
  else unquoteBody 0 (s.drop 1).dropLast

/-- The string case of `decodeState.rescanLiteral`, after the opening quote: the rest of
the literal up to and with the closing quote, and what follows it. -/
def rescanString : List Char → List Char × List Char
  | [] => ([], [])
  | c :: rest =>
    if c = '"' then ([c], rest)
    else if c = '\\' then
      match rest with
      | [] => ([c], [])
      | e :: rest1 => (c :: e :: (rescanString rest1).1, (rescanString rest1).2)
    else (c :: (rescanString rest).1, (rescanString rest).2)

/-- Whether a byte continues a number in `rescanLiteral`. -/
def isNumberChar (c : Char) : Bool :=
  isDigitChar c ∨ c = '.' ∨ c = 'e' ∨ c = 'E' ∨ c = '+' ∨ c = '-'

/-- The method `decodeState.rescanLiteral`, on text that starts with a literal: the
literal and what follows it. -/
def rescanLiteral (data : List Char) : List Char × List Char :=
  match data with
  | [] => ([], [])
  | c :: rest =>
    if c = '"' then (c :: (rescanString rest).1, (rescanString rest).2)
    else if c = 't' then (data.take 4, data.drop 4)
    else if c = 'f' then (data.take 5, data.drop 5)
    else if c = 'n' then (data.take 4, data.drop 4)
    else (c :: rest.takeWhile isNumberChar, rest.dropWhile isNumberChar)

/-- The method `decodeState.skip`, on text that starts with `{` or `[`: the scanner is
run until the value that opens there is closed; that value and what follows it. -/
def skipComposite (s : Scanner) : List Char → List Char × List Char
  | [] => ([], [])
  | c :: rest =>
    if (s.apply c).parseState = [] then ([c], rest)
    else (c :: (skipComposite (s.apply c) rest).1, (skipComposite (s.apply c) rest).2)

/-- The loop `d.scanWhile(scanSkipSpace)`: the text without the space it starts with. -/
def skipSpace (data : List Char) : List Char :=
  data.dropWhile isSpace

/-- The fields of `auth.OAuthToken` that have a JSON name. -/
inductive TokenField where
  | accessToken
  | expiresAt
  deriving DecidableEq, Repr

/-- The function `foldRune` of package `encoding/json`, as far as a comparison with a
name of ASCII letters can tell: the smallest rune that differs only in case, which is
the capital for a small ASCII letter, `S` for the long s and `K` for the Kelvin sign. -/
def foldRune (c : Char) : Char :=
  if 'a' ≤ c ∧ c ≤ 'z' then Char.ofNat (c.toNat - 32)
  else if c = Char.ofNat 0x17F then 'S'
  else if c = Char.ofNat 0x212A then 'K'
  else c

/-- The function `foldName` of package `encoding/json`. -/
def foldName (name : List Char) : List Char :=
  name.map foldRune

/-- The field an object key stands for: the field of exactly that name, else the field
whose name is the key up to case (`byExactName`, then `byFoldedName`). -/
def findField (key : List Char) : Option TokenField :=
  if key = "access_token".data then some .accessToken
  else if key = "expires_at".data then some .expiresAt
  else if foldName key = foldName "access_token".data then some .accessToken
  else if foldName key = foldName "expires_at".data then some .expiresAt
  else none

/-- The struct `decodeState` as far as the result depends on it: the token being filled
and the first saved error. -/
structure DecodeState where
  token : OAuthToken
  savedError : Option GoError
  deriving DecidableEq, Repr

/-- The method `decodeState.saveError`: the first error is the one kept. -/
def DecodeState.saveError (d : DecodeState) (err : GoError) : DecodeState :=
  if d.savedError.isNone then { d with savedError := some err } else d

/-- The message of a `*json.UnmarshalTypeError` for the field `access_token`. -/
def typeErrorField (value : String) : GoError :=
  .errorString ("json: cannot unmarshal " ++ value
    ++ " into Go struct field OAuthToken.access_token of type string")

/-- The message of a `*json.UnmarshalTypeError` for the token itself. -/
def typeErrorToken (value : String) : GoError :=
  .errorString ("json: cannot unmarshal " ++ value ++ " into Go value of type auth.OAuthToken")

/-- The message of the panic of a decoder that lost track of valid input. -/
def phasePanicMsg : String := "JSON decoder out of sync - data changing underfoot?"

/-- The method `decodeState.value` for the value of an object member: the value read or
skipped, stored in the field the key stands for, if any; the decoder's state, the text
after the value, and the error that ends the decoding, if any.  A string field takes a
string, ignores `null` and saves a type error for anything else; the time field hands
the raw text of the value to `Time.UnmarshalJSON`. -/
def decodeValue (field : Option TokenField) (data : List Char) (d : DecodeState) :
    DecodeState × List Char × Option GoError :=
  match data with
  | [] => (d, [], some (.errorString phasePanicMsg))
  | c :: _ =>
    let composite : Bool := c = '{' ∨ c = '['
    let item := if composite then (skipComposite Scanner.reset data).1 else (rescanLiteral data).1
    let rest := if composite then (skipComposite Scanner.reset data).2 else (rescanLiteral data).2
    match field with
    | none => (d, rest, none)
    | some .accessToken =>
      if c = '{' then (d.saveError (typeErrorField "object"), rest, none)
      else if c = '[' then (d.saveError (typeErrorField "array"), rest, none)
      else if c = 'n' then (d, rest, none)
      else if c = 't' ∨ c = 'f' then (d.saveError (typeErrorField "bool"), rest, none)
      else if c = '"' then
        match unquoteBytes item with
        | some str => ({ d with token := { d.token with AccessToken := String.mk str } }, rest, none)
        | none => (d, rest, some (.errorString phasePanicMsg))
      else (d.saveError (typeErrorField "number"), rest, none)
    | some .expiresAt =>
      let r := d.token.ExpiresAt.UnmarshalJSON item
      ({ d with token := { d.token with ExpiresAt := r.1 } }, rest, r.2)

/-- The loop of `decodeState.object` for the struct, on the text after `{` or after a
`,`: key, colon, value, then `,` to go on or the closing brace to stop.  The first
argument bounds the number of rounds; a bound above the length of the text is never
used up (`decodeObject_fuel_add`). -/
def decodeObject : Nat → List Char → DecodeState → DecodeState × Option GoError
  | 0, _, d => (d, some (.errorString phasePanicMsg))
  | fuel + 1, data, d =>
    match skipSpace data with
    | [] => (d, some (.errorString phasePanicMsg))
    | c :: rest =>
      if c = '}' then (d, none)
      else if c = '"' then
        match unquoteBytes (c :: (rescanString rest).1) with
        | none => (d, some (.errorString phasePanicMsg))
        | some key =>
          match skipSpace (rescanString rest).2 with
          | [] => (d, some (.errorString phasePanicMsg))
          | colon :: rest1 =>
            if colon = ':' then
              let r := decodeValue (findField key) (skipSpace rest1) d
              match r.2.2 with
              | some err => (r.1, some err)
              | none =>
                match skipSpace r.2.1 with
                | [] => (r.1, some (.errorString phasePanicMsg))
                | sep :: rest2 =>
                  if sep = '}' then (r.1, none)
                  else if sep = ',' then decodeObject fuel rest2 r.1
                  else (r.1, some (.errorString phasePanicMsg))
            else (d, some (.errorString phasePanicMsg))
      else (d, some (.errorString phasePanicMsg))

/-- The call `json.Unmarshal([]byte(data), &token)`: the token after the call and the
error.  The input is checked as a whole first, and a syntax error leaves the token as
it was.  An object fills the fields its keys name, `null` changes nothing, any other
value is a type error; an error of `Time.UnmarshalJSON` ends the decoding where it
occurs, a type error is kept until the end. -/
def jsonUnmarshal (data : String) (token : OAuthToken) : OAuthToken × Option GoError :=
  match checkValid data.data with
  | some err => (token, some err)
  | none =>
    match skipSpace data.data with
    | [] => (token, some (.errorString phasePanicMsg))
    | c :: rest =>
      if c = '{' then
        let r := decodeObject data.data.length rest { token := token, savedError := none }
        match r.2 with
        | some err => (r.1.token, some err)
        | none => (r.1.token, r.1.savedError)
      else if c = '[' then (token, some (typeErrorToken "array"))
      else if c = 'n' then (token, none)
      else if c = 't' ∨ c = 'f' then (token, some (typeErrorToken "bool"))
      else if c = '"' then (token, some (typeErrorToken "string"))
      else (token, some (typeErrorToken "number"))

/-! ## Package `token`: the storage -/

/-- The struct `Storage` of package `token`: its one field is the keyring. -/
structure Storage (σ : Type) where
  storage : KeyringStorage σ

/-- The method `Storage.Get`: the token stored under `key`.  The arguments are the
storage, the keyring's state and the key; the result is the keyring's next state, the
token and the error. -/
def Storage.Get {σ : Type} (s : Storage σ) (st : σ) (key : String) :
    σ × (OAuthToken × Option GoError) :=
  let r := s.storage.Get st key
  match r.2.2 with
  | some err =>
    if errorsIs err GoError.ErrNotFound then (r.1, (OAuthToken.zero, none))
    else (r.1, (OAuthToken.zero, some err))
  | none =>
    let u := jsonUnmarshal r.2.1 OAuthToken.zero
    match u.2 with
    | some err => (r.1, (OAuthToken.zero, some (ctxdWrapError err "could not unmarshal token")))
    | none => (r.1, (u.1, none))

/-- The method `Storage.Set`: the token written under `key` as JSON. -/
def Storage.Set {σ : Type} (s : Storage σ) (st : σ) (key : String) (token : OAuthToken) :
    σ × Option GoError :=
  match jsonMarshal token with
  | .error err => (st, some (ctxdWrapError err "could not marshal token"))
  | .ok data => s.storage.Set st key data

/-- The method `Storage.Delete`: the entry of `key` removed; a missing entry is no
error. -/
def Storage.Delete {σ : Type} (s : Storage σ) (st : σ) (key : String) : σ × Option GoError :=
  let r := s.storage.Delete st key
  match r.2 with
  | some err => if errorsIs err GoError.ErrNotFound then (r.1, none) else (r.1, some err)
  | none => (r.1, none)

/-- The function `NewStorage` with the option `WithKeyring(storage)`. -/
def NewStorage {σ : Type} (storage : KeyringStorage σ) : Storage σ :=
  { storage := storage }

/-! ## Stores and histories used to state the properties -/

/-- The mock of `mock/mock.go` with one expectation for each method: whatever the key,
`Get`, `Set` and `Delete` return what the test told them to. -/
def MockStorage (get : String × Option GoError) (set delete : Option GoError) :
    KeyringStorage Unit where
  Set := fun st _ _ => (st, set)
  Get := fun st _ => (st, get)
  Delete := fun st _ => (st, delete)

/-- One call of a method of the token storage. -/
inductive StorageOp where
  | get (key : String) : StorageOp
  | set (key : String) (token : OAuthToken) : StorageOp
  | delete (key : String) : StorageOp
  deriving DecidableEq, Repr

/-- The keyring's state after a sequence of calls on one token storage. -/
def Storage.run {σ : Type} (s : Storage σ) (st : σ) : List StorageOp → σ
  | [] => st
  | .get key :: ops => s.run (s.Get st key).1 ops
  | .set key token :: ops => s.run (s.Set st key token).1 ops
  | .delete key :: ops => s.run (s.Delete st key).1 ops

/-- The token of the tests: access token `access`, expiry 2020-01-02T03:04:05 UTC. -/
def expectedToken : OAuthToken :=
  { AccessToken := "access",
    ExpiresAt := { year := 2020, month := 1, day := 2, hour := 3, minute := 4, second := 5,
                   nsec := 0, offset := 0 } }

/-! ## The text of a time at second precision, as the specification writes it -/

/-- A number below 100 in two decimal digits (`MM`, `DD`, `HH`, `SS`). -/
def twoDigits (n : Nat) : List Char :=
  [Char.ofNat (48 + n / 10), Char.ofNat (48 + n % 10)]

/-- A number below 10000 in four decimal digits (`YYYY`). -/
def fourDigits (n : Nat) : List Char :=
  [Char.ofNat (48 + n / 1000), Char.ofNat (48 + n / 100 % 10), Char.ofNat (48 + n / 10 % 10),
    Char.ofNat (48 + n % 10)]

/-- The reading of a time at second precision, `YYYY-MM-DDTHH:MM:SS`. -/
def Time.secondsText (t : Time) : List Char :=
  fourDigits t.year.toNat ++ ['-'] ++ twoDigits t.month ++ ['-'] ++ twoDigits t.day ++ ['T']
    ++ twoDigits t.hour ++ [':'] ++ twoDigits t.minute ++ [':'] ++ twoDigits t.second

/-- The zone of a time as RFC 3339 writes it: `Z` for UTC, else the sign, the hours
and the minutes of the offset, `+hh:mm` or `-hh:mm`. -/
def Time.zoneText (t : Time) : List Char :=
  if t.offset = 0 then ['Z']
  else
    [if t.offset ≤ -60 then '-' else '+'] ++ twoDigits (t.offset.natAbs / 3600) ++ [':']
      ++ twoDigits (t.offset.natAbs / 60 % 60)

/-! ## JSON strings, RFC 3339 timestamps and token documents, as the specification
writes them -/

/-- A character that a JSON string literal holds as it is (RFC 8259, `unescaped`): no
double quote, no backslash, no control character. -/
def plainChar (c : Char) : Prop := c ≠ '"' ∧ c ≠ '\\' ∧ ¬ c.toNat < 32

instance (c : Char) : Decidable (plainChar c) := by
  unfold plainChar; infer_instance

/-- The character a two-character escape of RFC 8259 stands for, by the character after
the backslash. -/
def simpleEscape (e : Char) : Option Char :=
  if e = '"' then some '"'
  else if e = '\\' then some '\\'
  else if e = '/' then some '/'
  else if e = 'b' then some (Char.ofNat 8)
  else if e = 'f' then some (Char.ofNat 12)
  else if e = 'n' then some '\n'
  else if e = 'r' then some '\r'
  else if e = 't' then some '\t'
  else none

/-- The strings of RFC 8259: `StringLiteral lit a` says that the text `lit`, put between
double quotes, is a JSON string that spells `a`.  A character stands for itself when
it needs no escape, a two-character escape for its character, a `\u` escape with four
hexadecimal digits for the character of that code, and two `\u` escapes that form a
surrogate pair for the character of the pair. -/
inductive StringLiteral : List Char → List Char → Prop where
  | nil : StringLiteral [] []
  | unescaped (c : Char) (lit a : List Char) :
      plainChar c → StringLiteral lit a → StringLiteral (c :: lit) (c :: a)
  | escape (e c : Char) (lit a : List Char) :
      simpleEscape e = some c → StringLiteral lit a → StringLiteral ('\\' :: e :: lit) (c :: a)
  | unicode (x1 x2 x3 x4 : Char) (rr : Nat) (lit a : List Char) :
      getu4 x1 x2 x3 x4 = some rr → isSurrogate rr = false → StringLiteral lit a →
      StringLiteral ('\\' :: 'u' :: x1 :: x2 :: x3 :: x4 :: lit) (Char.ofNat rr :: a)
  | surrogates (x1 x2 x3 x4 y1 y2 y3 y4 : Char) (hi lo : Nat) (dec : Char) (lit a : List Char) :
      getu4 x1 x2 x3 x4 = some hi → getu4 y1 y2 y3 y4 = some lo →
      utf16DecodeRune hi lo = some dec → StringLiteral lit a →
      StringLiteral ('\\' :: 'u' :: x1 :: x2 :: x3 :: x4 :: '\\' :: 'u' :: y1 :: y2 :: y3 :: y4 :: lit)
        (dec :: a)

/-- The text of a token object after its opening brace: the two members, the access
token as the string literal `lit` and the expiry as the text `ts`, each between double
quotes, the closing brace, and `tail`. -/
def tokenMembers (lit ts tail : List Char) : List Char :=
  '"' :: ("access_token".data ++ '"' :: ':' :: '"' :: (lit ++ '"' :: ',' :: '"' ::
    ("expires_at".data ++ '"' :: ':' :: '"' :: (ts ++ '"' :: '}' :: tail))))

/-- An RFC 3339 `date-time`, by its fields. -/
structure Timestamp where
  year : Nat
  month : Nat
  day : Nat
  hour : Nat
  minute : Nat
  second : Nat
  secfrac : List Nat
  zone : Option (Bool × Nat × Nat)
  deriving DecidableEq, Repr

/-- The ranges RFC 3339 gives the fields of a numeric offset: hours 00 to 23, minutes 00 to
59. -/
def Timestamp.zoneWellFormed : Option (Bool × Nat × Nat) → Prop
  | none => True
  | some (_, hh, mm) => hh ≤ 23 ∧ mm ≤ 59

instance (z : Option (Bool × Nat × Nat)) : Decidable (Timestamp.zoneWellFormed z) := by
  unfold Timestamp.zoneWellFormed; split <;> infer_instance

/-- The days of a month as RFC 3339 lists them (section 5.7): 31, 28 or 29, 31, 30, 31, 30,
31, 31, 30, 31, 30, 31, February having 29 in a leap year, which is a year divisible by 4
and not by 100, or divisible by 400. -/
def Timestamp.daysOfMonth (year month : Nat) : Nat :=
  match month with
  | 2 => if year % 4 = 0 ∧ (year % 100 ≠ 0 ∨ year % 400 = 0) then 29 else 28
  | 4 => 30
  | 6 => 30
  | 9 => 30
  | 11 => 30
  | _ => 31

/-- The ranges RFC 3339 gives the fields: a year of four digits, a month, a day of that
month, an hour up to 23, a minute up to 59, a second up to 60 (60 is a leap second), decimal
digits in the fraction. -/
def Timestamp.WellFormed (f : Timestamp) : Prop :=
  f.year ≤ 9999 ∧ 1 ≤ f.month ∧ f.month ≤ 12 ∧ 1 ≤ f.day
    ∧ f.day ≤ Timestamp.daysOfMonth f.year f.month
    ∧ f.hour ≤ 23 ∧ f.minute ≤ 59 ∧ f.second ≤ 60 ∧ (∀ d ∈ f.secfrac, d ≤ 9)
    ∧ Timestamp.zoneWellFormed f.zone

instance (f : Timestamp) : Decidable f.WellFormed := by
  unfold Timestamp.WellFormed; infer_instance

/-- The text of the fraction: nothing, or a period and the digits. -/
def Timestamp.fractionChars : List Nat → List Char
  | [] => []
  | d :: ds => '.' :: (d :: ds).map (fun x => Char.ofNat (48 + x))

/-- The text of the zone: `Z`, or the sign, the hours, a colon and the minutes. -/
def Timestamp.zoneChars : Option (Bool × Nat × Nat) → List Char
  | none => ['Z']
  | some (negative, hh, mm) =>
    (if negative then '-' else '+') :: (twoDigits hh ++ ':' :: twoDigits mm)

/-- The text of a timestamp, `YYYY-MM-DDTHH:MM:SS`, the fraction, the zone. -/
def Timestamp.text (f : Timestamp) : List Char :=
  fourDigits f.year ++ '-' :: (twoDigits f.month ++ '-' :: (twoDigits f.day ++ 'T' ::
    (twoDigits f.hour ++ ':' :: (twoDigits f.minute ++ ':' :: (twoDigits f.second ++
      (Timestamp.fractionChars f.secfrac ++ Timestamp.zoneChars f.zone))))))

/-- The whole nanoseconds of a fraction of a second given by its decimal digits. -/
def Timestamp.nanos (secfrac : List Nat) : Nat :=
  Nat.ofDigits 10 secfrac.reverse * 10 ^ 9 / 10 ^ secfrac.length

/-- The offset of a zone in seconds east of UTC. -/
def Timestamp.offset : Option (Bool × Nat × Nat) → Int
  | none => 0
  | some (negative, hh, mm) =>
    if negative then -((hh * 3600 + mm * 60 : Nat) : Int) else ((hh * 3600 + mm * 60 : Nat) : Int)

/-- The time a timestamp denotes: its reading, in the zone it names. -/
def Timestamp.time (f : Timestamp) : Time :=
  { year := f.year, month := f.month, day := f.day, hour := f.hour, minute := f.minute,
    second := f.second, nsec := Timestamp.nanos f.secfrac, offset := Timestamp.offset f.zone }

/-- The JSON text `{"access_token":"A","expires_at":"T"}` for the texts `A` and `T`. -/
def tokenDocument (literal expiry : List Char) : String :=
  "\x7b\"access_token\":\"" ++ String.mk literal ++ "\",\"expires_at\":\""
    ++ String.mk expiry ++ "\"\x7d"

/-- The JSON text `{"access_token":"A"}` for the text `A`: an object with the first
field only. -/
def accessTokenDocument (literal : List Char) : String :=
  "\x7b\"access_token\":\"" ++ String.mk literal ++ "\"\x7d"

/-- The JSON text `{"expires_at":"T"}` for the text `T`: an object with the second
field only. -/
def expiresAtDocument (expiry : List Char) : String :=
  "\x7b\"expires_at\":\"" ++ String.mk expiry ++ "\"\x7d"

/-- The RFC 3339 fields of a time that is a whole second. -/
def Time.timestamp (t : Time) : Timestamp :=
  { year := t.year.toNat, month := t.month, day := t.day, hour := t.hour, minute := t.minute,
    second := t.second, secfrac := [],
    zone := if t.offset = 0 then none
            else some (decide (t.offset < 0), t.offset.natAbs / 3600, t.offset.natAbs / 60 % 60) }

/-- The timestamp `1990-12-31T23:59:60Z`, a leap second, which RFC 3339 gives as an
example of a valid timestamp. -/
def leapSecond : Timestamp :=
  { year := 1990, month := 12, day := 31, hour := 23, minute := 59, second := 60,
    secfrac := [], zone := none }

/-- The timestamp `2020-01-02T03:04:05.000Z` of the tests. -/
def testTimestamp : Timestamp :=
  { year := 2020, month := 1, day := 2, hour := 3, minute := 4, second := 5,
    secfrac := [0, 0, 0], zone := none }

/-- The token of the tests with its expiry read in a zone 30 seconds east of UTC. -/
def offsetToken : OAuthToken :=
  { AccessToken := "access",
    ExpiresAt := { year := 2020, month := 1, day := 2, hour := 3, minute := 4, second := 5,
                   nsec := 0, offset := 30 } }

/-- The token of the tests with its expiry in the year 10000. -/
def lateToken : OAuthToken :=
  { expectedToken with ExpiresAt := { expectedToken.ExpiresAt with year := 10000 } }

/-- The error of `json.Marshal` for an expiry whose year is not written with four
digits. -/
def yearError : GoError :=
  .wrapError
    "json: error calling MarshalJSON for type time.Time: Time.MarshalJSON: year outside of range [0,9999]"
    (.errorString "Time.MarshalJSON: year outside of range [0,9999]")

/-- The token `other`, expiring 2021-06-07T08:09:10 UTC. -/
def otherToken : OAuthToken :=
  { AccessToken := "other",
    ExpiresAt := { year := 2021, month := 6, day := 7, hour := 8, minute := 9, second := 10,
                   nsec := 0, offset := 0 } }

/-- The timestamp `2021-06-07T08:09:10Z`. -/
def otherTimestamp : Timestamp :=
  { year := 2021, month := 6, day := 7, hour := 8, minute := 9, second := 10,
    secfrac := [], zone := none }

/-! ## Keyrings that behave as a key-value map -/

/-- A keyring that behaves as a key-value map, its state read as a map by `entries`:
`Set` succeeds and puts the value under the key, `Get` changes nothing and returns the
value under the key, `Delete` removes the entry under the key, and `Get` and `Delete`
of a key without an entry fail with the not-found condition and change nothing. -/
structure KeyringStorage.IsMap {σ : Type} (k : KeyringStorage σ)
    (entries : σ → String → Option String) : Prop where
  set_entries : ∀ st key value,
    entries (k.Set st key value).1 = fun x => if x = key then some value else entries st x
  set_result : ∀ st key value, (k.Set st key value).2 = none
  get_entries : ∀ st key, entries (k.Get st key).1 = entries st
  get_present : ∀ st key value, entries st key = some value → (k.Get st key).2 = (value, none)
  get_absent : ∀ st key, entries st key = none →
    ∃ err, (k.Get st key).2.2 = some err ∧ errorsIs err GoError.ErrNotFound = true
  delete_entries : ∀ st key,
    entries (k.Delete st key).1 = fun x => if x = key then none else entries st x
  delete_present : ∀ st key value, entries st key = some value → (k.Delete st key).2 = none
  delete_absent : ∀ st key, entries st key = none →
    ∃ err, (k.Delete st key).2 = some err ∧ errorsIs err GoError.ErrNotFound = true

/-! ## The chain of an error, as the specification speaks of it -/

/-- The chain of an error: the error itself, followed by the errors that unwrapping
leads to, those under the first of two joined errors before those under the second. -/
def GoError.chain : GoError → List GoError
  | .wrapError text cause => .wrapError text cause :: cause.chain
  | .joinError text first second => .joinError text first second :: (first.chain ++ second.chain)
  | err => [err]

/-- An error that wraps `keyring.ErrNotFound`, as `fmt.Errorf("keychain: %w", err)`
makes it. -/
def wrappedNotFound : GoError :=
  .wrapError "keychain: secret not found in keyring" .ErrNotFound

/-- An error that is not `keyring.ErrNotFound` and wraps nothing, of a type whose
method `Is` reports `keyring.ErrNotFound` as its equivalent. -/
def declaredNotFound : GoError :=
  .equivalentError "no such secret" .ErrNotFound

/-! ## Lemmas on writing a token -/

/-- No month has more than 31 days. -/
theorem daysIn_le (month : Nat) (year : Int) (h1 : 1 ≤ month) (h2 : month ≤ 12) :
    daysIn month year ≤ 31 := by
  unfold daysIn
  split_ifs
  · omega
  · interval_cases month <;> simp [daysBefore]

/-- `appendInt` writes a number below 100 at width 2 as its two digits. -/
theorem appendInt_two (n : Nat) (h : n < 100) : appendInt (n : Int) 2 = twoDigits n := by
  simp [appendInt, twoDigits, utod, h]

/-- `appendInt` writes a year in 0..9999 at width 4 as its four digits. -/
theorem appendInt_four (y : Int) (h0 : 0 ≤ y) (h1 : y ≤ 9999) :
    appendInt y 4 = fourDigits y.toNat := by
  lift y to Nat using h0
  have : y < 10000 := by omega
  simp [appendInt, fourDigits, utod, this]

/-- The RFC 3339 text of a whole second, with a year in 0..9999 and an offset below a
day: the reading at second precision, then the zone. -/
theorem appendFormatRFC3339_whole (t : Time) (hv : t.Valid) (hn : t.nsec = 0)
    (hy0 : 0 ≤ t.year) (hy1 : t.year ≤ 9999) (ho : t.offset.natAbs < 86400) :
    t.appendFormatRFC3339 = t.secondsText ++ t.zoneText := by
  obtain ⟨hm1, hm2, hd1, hd2, hh, hmi, hs, -⟩ := hv
  have hd3 : t.day < 100 := by
    have : daysIn t.month t.year ≤ 31 := daysIn_le _ _ hm1 hm2
    omega
  unfold Time.appendFormatRFC3339 Time.secondsText Time.zoneText
  rw [appendInt_four _ hy0 hy1, appendInt_two _ (by omega), appendInt_two _ hd3,
    appendInt_two _ (by omega), appendInt_two _ (by omega), appendInt_two _ (by omega), hn]
  simp only [appendNano, if_true, List.append_nil]
  congr 1
  by_cases h0 : t.offset = 0
  · simp [h0]
  · simp only [h0, if_false]
    have hz : (Int.tdiv t.offset 60).natAbs = t.offset.natAbs / 60 := by
      rw [Int.natAbs_tdiv]; rfl
    have hsign : (Int.tdiv t.offset 60 < 0) ↔ t.offset ≤ -60 := by
      rcases Int.natAbs_eq t.offset with h | h
      · rw [h]
        have : 0 ≤ Int.tdiv (↑t.offset.natAbs) 60 := Int.tdiv_nonneg (by omega) (by omega)
        omega
      · rw [h, Int.neg_tdiv]
        have : Int.tdiv (↑t.offset.natAbs) 60 = ((t.offset.natAbs / 60 : Nat) : Int) := rfl
        rw [this]
        omega
    rw [hz, appendInt_two _ (by omega), appendInt_two _ (by omega), Nat.div_div_eq_div_mul]
    simp only [hsign]

/-- Characters are equal when their code points are. -/
theorem char_eq_iff (c d : Char) : c = d ↔ c.toNat = d.toNat := by
  constructor
  · intro h; rw [h]
  · intro h
    have := congrArg Char.ofNat h
    simpa using this

/-- The order of characters is the order of their code points. -/
theorem char_le_iff (c d : Char) : c ≤ d ↔ c.toNat ≤ d.toNat := Iff.rfl

/-- The strict order of characters is the order of their code points. -/
theorem char_lt_iff (c d : Char) : c < d ↔ c.toNat < d.toNat := Iff.rfl

/-- The code point of `Char.ofNat n` is `n` below the surrogates. -/
theorem toNat_ofNat_small (n : Nat) (h : n < 55296) : (Char.ofNat n).toNat = n := by
  unfold Char.ofNat
  have hv : n.isValidChar := Or.inl h
  simp only [hv, dite_true]
  simp [Char.ofNatAux, Char.toNat, UInt32.toNat]

/-- The code point of the character of a decimal digit. -/
theorem digit_toNat (d : Nat) (h : d < 10) : (Char.ofNat (48 + d)).toNat = 48 + d :=
  toNat_ofNat_small _ (by omega)

/-- `Time.MarshalJSON` on a whole second, with a year in 0..9999 and an offset below a
day: no error, and the RFC 3339 text between double quotes. -/
theorem Time.MarshalJSON_whole (t : Time) (hv : t.Valid) (hn : t.nsec = 0)
    (hy0 : 0 ≤ t.year) (hy1 : t.year ≤ 9999) (ho : t.offset.natAbs < 86400) :
    t.MarshalJSON = .ok (['"'] ++ (t.secondsText ++ t.zoneText) ++ ['"']) := by
  unfold Time.MarshalJSON Time.appendStrictRFC3339
  rw [appendFormatRFC3339_whole t hv hn hy0 hy1 ho]
  have h4 : (t.secondsText ++ t.zoneText).get? 4 = some '-' := by
    simp [Time.secondsText, fourDigits, twoDigits]
  simp only [h4, ne_eq, not_true_eq_false, if_false]
  by_cases h0 : t.offset = 0
  · simp [Time.zoneText, h0]
  · have hlast : (t.secondsText ++ t.zoneText).getLast? ≠ some 'Z' := by
      simp only [Time.secondsText, Time.zoneText, h0, if_false, fourDigits, twoDigits]
      simp only [List.cons_append, List.nil_append, List.getLast?_cons_cons, List.getLast?_singleton]
      rw [Ne, Option.some.injEq, char_eq_iff, digit_toNat _ (Nat.mod_lt _ (by omega))]
      simp
      omega
    simp only [hlast, ne_eq, not_false_eq_true, if_true]
    have hc : (t.secondsText ++ t.zoneText).getD ((t.secondsText ++ t.zoneText).length - 6) ' '
        = (if t.offset ≤ -60 then '-' else '+') := by
      simp [Time.secondsText, Time.zoneText, h0, fourDigits, twoDigits]
    have hd : (t.secondsText ++ t.zoneText).drop ((t.secondsText ++ t.zoneText).length - 5)
        = twoDigits (t.offset.natAbs / 3600) ++ [':'] ++ twoDigits (t.offset.natAbs / 60 % 60) := by
      simp [Time.secondsText, Time.zoneText, h0, fourDigits, twoDigits]
    have hnum : num2 (twoDigits (t.offset.natAbs / 3600) ++ [':']
        ++ twoDigits (t.offset.natAbs / 60 % 60)) = t.offset.natAbs / 3600 := by
      simp only [num2, twoDigits, List.cons_append, List.nil_append, List.getD_cons_zero,
        List.getD_cons_succ]
      rw [digit_toNat _ (Nat.mod_lt _ (by omega)), digit_toNat _ (by omega)]
      omega
    rw [hc, hd, hnum]
    have hsign : ¬ (('0' : Char) ≤ (if t.offset ≤ -60 then '-' else '+')
        ∧ (if t.offset ≤ -60 then '-' else '+') ≤ ('9' : Char)) := by
      split_ifs <;> decide
    have hlt : ¬ (t.offset.natAbs / 3600 ≥ 24) := by omega
    simp only [hsign, hlt, or_self, if_false]

/-- `json.Marshal` on a token whose expiry is a whole second, with a year in 0..9999
and an offset below a day: no error, and the two fields in order. -/
theorem jsonMarshal_whole (token : OAuthToken) (hv : token.ExpiresAt.Valid)
    (hn : token.ExpiresAt.nsec = 0) (hy0 : 0 ≤ token.ExpiresAt.year)
    (hy1 : token.ExpiresAt.year ≤ 9999) (ho : token.ExpiresAt.offset.natAbs < 86400) :
    jsonMarshal token = .ok (String.mk ("\x7b\"access_token\":\"".data
      ++ escapeString token.AccessToken.data ++ "\",\"expires_at\":\"".data
      ++ token.ExpiresAt.secondsText ++ token.ExpiresAt.zoneText ++ "\"\x7d".data)) := by
  unfold jsonMarshal
  rw [Time.MarshalJSON_whole _ hv hn hy0 hy1 ho]
  simp [appendString]

/-- A digit is not a period. -/
theorem digit_ne_period (d : Nat) (h : d < 10) : Char.ofNat (48 + d) ≠ '.' := by
  rw [Ne, char_eq_iff, digit_toNat d h]
  simp
  omega

/-- Two digits hold no period. -/
theorem period_not_mem_twoDigits (n : Nat) (h : n < 100) : '.' ∉ twoDigits n := by
  have h1 := digit_ne_period (n / 10) (by omega)
  have h2 := digit_ne_period (n % 10) (by omega)
  simp [twoDigits, Ne.symm h1, Ne.symm h2]

/-- Four digits hold no period. -/
theorem period_not_mem_fourDigits (n : Nat) (h : n < 10000) : '.' ∉ fourDigits n := by
  have h1 := digit_ne_period (n / 1000) (by omega)
  have h2 := digit_ne_period (n / 100 % 10) (by omega)
  have h3 := digit_ne_period (n / 10 % 10) (by omega)
  have h4 := digit_ne_period (n % 10) (by omega)
  simp [fourDigits, Ne.symm h1, Ne.symm h2, Ne.symm h3, Ne.symm h4]

/-- A decimal digit of `Nat.toDigits` is no minus sign. -/
theorem digitChar_ne_minus (n : Nat) (h : n < 10) : Nat.digitChar n ≠ '-' := by
  interval_cases n <;> decide

/-- The text of `Nat.toDigitsCore` in base 10 holds no minus sign, unless the text it
starts from does. -/
theorem toDigitsCore_ne_minus (fuel : Nat) : ∀ (n : Nat) (ds : List Char),
    (∀ c ∈ ds, c ≠ '-') → ∀ c ∈ Nat.toDigitsCore 10 fuel n ds, c ≠ '-' := by
  induction fuel with
  | zero => intro n ds h; simpa [Nat.toDigitsCore] using h
  | succ fuel ih =>
    intro n ds h
    have hd : ∀ c ∈ Nat.digitChar (n % 10) :: ds, c ≠ '-' := by
      intro c hc
      rcases List.mem_cons.1 hc with rfl | hc
      · exact digitChar_ne_minus _ (Nat.mod_lt _ (by decide))
      · exact h c hc
    simp only [Nat.toDigitsCore]
    split_ifs
    · exact hd
    · exact ih _ _ hd

/-- The text of `Nat.toDigitsCore` is at least as long as the text it starts from. -/
theorem toDigitsCore_length_le (fuel : Nat) : ∀ (n : Nat) (ds : List Char),
    ds.length ≤ (Nat.toDigitsCore 10 fuel n ds).length := by
  induction fuel with
  | zero => intro n ds; simp [Nat.toDigitsCore]
  | succ fuel ih =>
    intro n ds
    simp only [Nat.toDigitsCore]
    split_ifs
    · simp
    · exact le_trans (by simp) (ih _ _)

/-- A number from `10 ^ e` on has more than `e` digits. -/
theorem toDigitsCore_length_pow (e : Nat) : ∀ (fuel n : Nat) (ds : List Char),
    n < fuel → 10 ^ e ≤ n → ds.length + e + 1 ≤ (Nat.toDigitsCore 10 fuel n ds).length := by
  induction e with
  | zero =>
    intro fuel n ds hf _
    obtain ⟨f, rfl⟩ : ∃ f, fuel = f + 1 := ⟨fuel - 1, by omega⟩
    simp only [Nat.toDigitsCore]
    split_ifs
    · simp
    · exact le_trans (by simp) (toDigitsCore_length_le f _ _)
  | succ e ih =>
    intro fuel n ds hf hn
    obtain ⟨f, rfl⟩ : ∃ f, fuel = f + 1 := ⟨fuel - 1, by omega⟩
    have hpos : 0 < 10 ^ e := by positivity
    have h10 : 10 ^ e ≤ n / 10 := by
      rw [Nat.le_div_iff_mul_le (by decide)]
      rw [pow_succ] at hn
      exact hn
    have hne : n / 10 ≠ 0 := by omega
    simp only [Nat.toDigitsCore, hne, if_false]
    have := ih f (n / 10) (Nat.digitChar (n % 10) :: ds) (by omega) h10
    simp only [List.length_cons] at this
    omega

/-- A digit is no minus sign. -/
theorem digit_ne_minus (d : Nat) (h : d < 10) : Char.ofNat (48 + d) ≠ '-' := by
  rw [Ne, char_eq_iff, digit_toNat d h]
  simp
  omega

/-- A year outside 0..9999 as `appendInt` writes it at width 4: five characters or
more, none after the first a minus sign. -/
theorem appendInt_year (y : Int) (h : y < 0 ∨ 9999 < y) :
    5 ≤ (appendInt y 4).length ∧ ∀ c ∈ (appendInt y 4).drop 1, c ≠ '-' := by
  unfold appendInt
  simp only [show ¬ ((4 : Nat) = 2) by decide, false_and, if_false, true_and]
  by_cases hu : y.natAbs < 10000
  · have hneg : y < 0 := by omega
    simp only [hu, hneg, if_true, utod]
    constructor
    · simp
    · intro c hc
      simp at hc
      rcases hc with rfl | rfl | rfl | rfl
      · exact digit_ne_minus _ (by omega)
      · exact digit_ne_minus _ (by omega)
      · exact digit_ne_minus _ (by omega)
      · exact digit_ne_minus _ (by omega)
  · simp only [hu, if_false]
    have hlen : 5 ≤ (Nat.toDigits 10 y.natAbs).length := by
      have := toDigitsCore_length_pow 4 (y.natAbs + 1) y.natAbs [] (by omega) (by omega)
      simpa [Nat.toDigits] using this
    have hdig : ∀ c ∈ Nat.toDigits 10 y.natAbs, c ≠ '-' :=
      toDigitsCore_ne_minus _ _ _ (by simp)
    have hrep : 4 - (Nat.toDigits 10 y.natAbs).length = 0 := by omega
    rw [hrep]
    simp only [List.replicate_zero, List.append_nil]
    constructor
    · simp; omega
    · intro c hc
      split_ifs at hc
      · simp at hc
        exact hdig c hc
      · simp at hc
        exact hdig c (List.mem_of_mem_tail hc)

/-- The fifth character of a text of five characters or more that holds no minus sign
after its first character is no minus sign. -/
theorem get?_four_ne_minus (l rest : List Char) (h5 : 5 ≤ l.length)
    (h : ∀ c ∈ l.drop 1, c ≠ '-') : (l ++ rest).get? 4 ≠ some '-' := by
  match l, h5, h with
  | c0 :: c1 :: c2 :: c3 :: c4 :: l1, _, h =>
    simp only [List.cons_append, List.get?_cons_succ, List.get?_cons_zero, ne_eq,
      Option.some.injEq]
    exact h c4 (by simp)

/-- `Time.MarshalJSON` refuses a year outside 0..9999. -/
theorem Time.MarshalJSON_year (t : Time) (h : t.year < 0 ∨ 9999 < t.year) :
    t.MarshalJSON = .error (.errorString "Time.MarshalJSON: year outside of range [0,9999]") := by
  unfold Time.MarshalJSON Time.appendStrictRFC3339
  have h4 : t.appendFormatRFC3339.get? 4 ≠ some '-' := by
    unfold Time.appendFormatRFC3339
    simp only [List.append_assoc]
    exact get?_four_ne_minus _ _ (appendInt_year _ h).1 (appendInt_year _ h).2
  simp only [h4, ne_eq, not_false_eq_true, if_true]
  rfl

/-- `json.Marshal` refuses a token whose expiry has a year outside 0..9999. -/
theorem jsonMarshal_year (token : OAuthToken)
    (h : token.ExpiresAt.year < 0 ∨ 9999 < token.ExpiresAt.year) :
    jsonMarshal token = .error yearError := by
  unfold jsonMarshal
  rw [Time.MarshalJSON_year _ h]
  rfl

/-! ## Lemmas on reading a token -/

/-- An entry of the table `hex` is a hexadecimal digit. -/
theorem hex_isHexDigit (n : Nat) (h : n < 16) : isHexDigit (hex n) = true := by
  interval_cases n <;> rfl

/-- An entry of the table `hex` reads back as its index. -/
theorem hexValue_hex (n : Nat) (h : n < 16) : hexValue (hex n) = some n := by
  interval_cases n <;> rfl

/-- A character with a hexadecimal value is a hexadecimal digit. -/
theorem hexValue_isHexDigit (c : Char) (v : Nat) (h : hexValue c = some v) :
    isHexDigit c = true := by
  unfold hexValue at h
  unfold isHexDigit
  by_cases h1 : ('0' ≤ c ∧ c ≤ '9')
  · simp [h1]
  · by_cases h2 : ('a' ≤ c ∧ c ≤ 'f')
    · simp [h2]
    · by_cases h3 : ('A' ≤ c ∧ c ≤ 'F')
      · simp [h3]
      · simp [h1, h2, h3] at h

/-- Four characters that `getu4` reads are hexadecimal digits. -/
theorem getu4_isHexDigit (x1 x2 x3 x4 : Char) (rr : Nat) (h : getu4 x1 x2 x3 x4 = some rr) :
    isHexDigit x1 = true ∧ isHexDigit x2 = true ∧ isHexDigit x3 = true
      ∧ isHexDigit x4 = true := by
  unfold getu4 at h
  cases h1 : hexValue x1 <;> cases h2 : hexValue x2 <;> cases h3 : hexValue x3 <;>
    cases h4 : hexValue x4 <;> simp [h1, h2, h3, h4] at h
  exact ⟨hexValue_isHexDigit _ _ h1, hexValue_isHexDigit _ _ h2, hexValue_isHexDigit _ _ h3,
    hexValue_isHexDigit _ _ h4⟩

/-- A hexadecimal digit is a plain character. -/
theorem isHexDigit_plain (c : Char) (h : isHexDigit c = true) : plainChar c := by
  simp only [isHexDigit, char_le_iff, Bool.decide_or, Bool.decide_and, Bool.or_eq_true,
    Bool.and_eq_true, decide_eq_true_eq] at h
  have e0 : ('0' : Char).toNat = 48 := rfl
  have e9 : ('9' : Char).toNat = 57 := rfl
  have ea : ('a' : Char).toNat = 97 := rfl
  have ef : ('f' : Char).toNat = 102 := rfl
  have eA : ('A' : Char).toNat = 65 := rfl
  have eF : ('F' : Char).toNat = 70 := rfl
  rw [e0, e9, ea, ef, eA, eF] at h
  refine ⟨?_, ?_, by omega⟩
  · intro hc; rw [hc] at h; revert h; decide
  · intro hc; rw [hc] at h; revert h; decide

/-- Inside a string literal the scanner stays where it is over plain characters. -/
theorem scan_plain (e : Bool) (ps : List ParseState) (er : Option GoError)
    (cs : List Char) (h : ∀ c ∈ cs, plainChar c) :
    cs.foldl Scanner.apply ⟨.stateInString, e, ps, er⟩ = ⟨.stateInString, e, ps, er⟩ := by
  induction cs with
  | nil => rfl
  | cons c cs ih =>
    obtain ⟨h1, h2, h3⟩ := h c (List.mem_cons_self _ _)
    rw [List.foldl_cons]
    have : Scanner.apply ⟨.stateInString, e, ps, er⟩ c = ⟨.stateInString, e, ps, er⟩ := by
      simp [Scanner.apply, h1, h2, h3]
    rw [this]
    exact ih (fun c hc => h c (List.mem_cons_of_mem _ hc))

/-- A character of `htmlSafeSet` is plain. -/
theorem htmlSafeSet_plain (c : Char) (h : htmlSafeSet c = true) : plainChar c := by
  simp [htmlSafeSet] at h
  refine ⟨h.2.2.1, h.2.2.2.2.2.2, by omega⟩

/-- A character outside ASCII is plain. -/
theorem nonASCII_plain (c : Char) (h : ¬ c.toNat < 128) : plainChar c := by
  refine ⟨?_, ?_, by omega⟩
  · intro hc; rw [hc] at h; exact h (by decide)
  · intro hc; rw [hc] at h; exact h (by decide)

/-- The character of a two-character escape is one the scanner takes after a backslash. -/
theorem simpleEscape_scan (e c : Char) (h : simpleEscape e = some c) :
    (e = 'b' ∨ e = 'f' ∨ e = 'n' ∨ e = 'r' ∨ e = 't' ∨ e = '\\' ∨ e = '/' ∨ e = '"') := by
  unfold simpleEscape at h
  split_ifs at h <;> simp_all

/-- The scanner run over a text with a first character. -/
theorem foldl_apply_cons (s : Scanner) (c : Char) (cs : List Char) :
    (c :: cs).foldl Scanner.apply s = cs.foldl Scanner.apply (s.apply c) := rfl

/-- Inside a string literal the scanner stays where it is over a `\u` escape. -/
theorem scan_unicode (e : Bool) (ps : List ParseState) (er : Option GoError)
    (x1 x2 x3 x4 : Char) (rr : Nat) (h : getu4 x1 x2 x3 x4 = some rr) :
    ((((((Scanner.mk .stateInString e ps er).apply '\\').apply 'u').apply x1).apply x2).apply
      x3).apply x4 = ⟨.stateInString, e, ps, er⟩ := by
  obtain ⟨h1, h2, h3, h4⟩ := getu4_isHexDigit _ _ _ _ _ h
  simp [Scanner.apply, h1, h2, h3, h4]

/-- Inside a string literal the scanner stays where it is over the text of a JSON string. -/
theorem scan_stringLiteral (e : Bool) (ps : List ParseState) (er : Option GoError)
    (lit a : List Char) (h : StringLiteral lit a) :
    lit.foldl Scanner.apply ⟨.stateInString, e, ps, er⟩ = ⟨.stateInString, e, ps, er⟩ := by
  induction h with
  | nil => rfl
  | unescaped c lit a hc _ ih =>
    rw [foldl_apply_cons]
    have : Scanner.apply ⟨.stateInString, e, ps, er⟩ c = ⟨.stateInString, e, ps, er⟩ := by
      simp [Scanner.apply, hc.1, hc.2.1, hc.2.2]
    rw [this, ih]
  | escape x c lit a hx _ ih =>
    have hx' := simpleEscape_scan x c hx
    rw [foldl_apply_cons, foldl_apply_cons]
    have : (Scanner.apply ⟨.stateInString, e, ps, er⟩ '\\').apply x
        = ⟨.stateInString, e, ps, er⟩ := by
      simp [Scanner.apply, hx']
    rw [this, ih]
  | unicode x1 x2 x3 x4 rr lit a hg _ _ ih =>
    simp only [foldl_apply_cons]
    rw [scan_unicode e ps er x1 x2 x3 x4 rr hg, ih]
  | surrogates x1 x2 x3 x4 y1 y2 y3 y4 hi lo dec lit a hg1 hg2 _ _ ih =>
    simp only [foldl_apply_cons]
    rw [scan_unicode e ps er x1 x2 x3 x4 hi hg1, scan_unicode e ps er y1 y2 y3 y4 lo hg2, ih]

/-- The function `rescanString` on a text with a first character. -/
theorem rescanString_cons (c : Char) (rest : List Char) :
    rescanString (c :: rest) =
      if c = '"' then ([c], rest)
      else if c = '\\' then
        match rest with
        | [] => ([c], [])
        | e :: rest1 => (c :: e :: (rescanString rest1).1, (rescanString rest1).2)
      else (c :: (rescanString rest).1, (rescanString rest).2) := by
  rw [rescanString.eq_def]

/-- `rescanString` runs over plain characters up to the closing quote. -/
theorem rescanString_plain (cs tail : List Char) (h : ∀ c ∈ cs, plainChar c) :
    rescanString (cs ++ '"' :: tail) = (cs ++ ['"'], tail) := by
  induction cs with
  | nil => simp [rescanString_cons]
  | cons c cs ih =>
    obtain ⟨h1, h2, -⟩ := h c (List.mem_cons_self _ _)
    have ih' := ih (fun c hc => h c (List.mem_cons_of_mem _ hc))
    simp [rescanString_cons, h1, h2, ih']

/-- `rescanString` runs over a `\u` escape. -/
theorem rescanString_unicode (x1 x2 x3 x4 : Char) (rr : Nat) (r : List Char)
    (h : getu4 x1 x2 x3 x4 = some rr) :
    rescanString ('\\' :: 'u' :: x1 :: x2 :: x3 :: x4 :: r)
      = ('\\' :: 'u' :: x1 :: x2 :: x3 :: x4 :: (rescanString r).1, (rescanString r).2) := by
  obtain ⟨h1, h2, h3, h4⟩ := getu4_isHexDigit _ _ _ _ _ h
  have p1 := isHexDigit_plain _ h1
  have p2 := isHexDigit_plain _ h2
  have p3 := isHexDigit_plain _ h3
  have p4 := isHexDigit_plain _ h4
  simp [rescanString_cons, p1.1, p1.2.1, p2.1, p2.2.1, p3.1, p3.2.1, p4.1, p4.2.1]

/-- `rescanString` runs over the text of a JSON string up to the closing quote. -/
theorem rescanString_stringLiteral (lit a tail : List Char) (h : StringLiteral lit a) :
    rescanString (lit ++ '"' :: tail) = (lit ++ ['"'], tail) := by
  induction h with
  | nil => simp [rescanString_cons]
  | unescaped c lit a hc _ ih =>
    simp [rescanString_cons, hc.1, hc.2.1, ih]
  | escape x c lit a hx _ ih =>
    simp [rescanString_cons, ih]
  | unicode x1 x2 x3 x4 rr lit a hg _ _ ih =>
    simp only [List.cons_append]
    rw [rescanString_unicode _ _ _ _ _ _ hg, ih]
  | surrogates x1 x2 x3 x4 y1 y2 y3 y4 hi lo dec lit a hg1 hg2 _ _ ih =>
    simp only [List.cons_append]
    rw [rescanString_unicode _ _ _ _ _ _ hg1, rescanString_unicode _ _ _ _ _ _ hg2, ih]

/-- The loop of `unquoteBytes` keeps a plain character. -/
theorem unquoteBody_plain (x : Char) (r : List Char) (h1 : x ≠ '"') (h2 : x ≠ '\\')
    (h3 : ¬ x.toNat < 32) :
    unquoteBody 0 (x :: r) = (unquoteBody 0 r).map (fun out => x :: out) := by
  rw [unquoteBody.eq_def]
  simp [h1, h2, h3]

/-- The loop of `unquoteBytes` at a two-character escape. -/
theorem unquoteBody_escape (e c : Char) (r : List Char) (h : simpleEscape e = some c) :
    unquoteBody 0 ('\\' :: e :: r) = (unquoteBody 0 r).map (fun out => c :: out) := by
  have hu : e ≠ 'u' := by
    intro hu; subst hu; simp [simpleEscape] at h
  rw [unquoteBody.eq_def]
  simp only [hu, if_false, if_true]
  unfold simpleEscape at h
  split_ifs at h with h1 h2 h3 h4 h5 h6 h7 h8 <;> simp at h <;> subst h
  · subst h1; simp
  · subst h2; simp
  · subst h3; simp
  · subst h4; simp
  · subst h5; simp
  · subst h6; simp
  · subst h7; simp
  · subst h8; simp

/-- The loop of `unquoteBytes` at a `\\u` escape that is no surrogate. -/
theorem unquoteBody_unicode (a b c d : Char) (r : List Char) (rr : Nat)
    (h : getu4 a b c d = some rr) (hs : isSurrogate rr = false) :
    unquoteBody 0 ('\\' :: 'u' :: a :: b :: c :: d :: r) =
      (unquoteBody 0 r).map (fun out => Char.ofNat rr :: out) := by
  rw [unquoteBody.eq_def]
  simp [h, hs]

/-- The first half of a surrogate pair is a surrogate. -/
theorem utf16DecodeRune_isSurrogate (hi lo : Nat) (dec : Char)
    (h : utf16DecodeRune hi lo = some dec) : isSurrogate hi = true := by
  unfold utf16DecodeRune at h
  split_ifs at h with h1
  simp [isSurrogate]
  omega

/-- The loop of `unquoteBytes` passes over the six characters of an escape it has consumed.
-/
theorem unquoteBody_skip (x1 x2 x3 x4 x5 x6 : Char) (r : List Char) :
    unquoteBody 6 (x1 :: x2 :: x3 :: x4 :: x5 :: x6 :: r) = unquoteBody 0 r := by
  simp [unquoteBody]

/-- The loop of `unquoteBytes` at two `\u` escapes that form a surrogate pair. -/
theorem unquoteBody_surrogates (x1 x2 x3 x4 y1 y2 y3 y4 : Char) (r : List Char) (hi lo : Nat)
    (dec : Char) (h1 : getu4 x1 x2 x3 x4 = some hi) (h2 : getu4 y1 y2 y3 y4 = some lo)
    (hd : utf16DecodeRune hi lo = some dec) :
    unquoteBody 0 ('\\' :: 'u' :: x1 :: x2 :: x3 :: x4 :: '\\' :: 'u' :: y1 :: y2 :: y3 :: y4 :: r)
      = (unquoteBody 0 r).map (fun out => dec :: out) := by
  have hs := utf16DecodeRune_isSurrogate hi lo dec hd
  rw [unquoteBody.eq_def]
  simp only [h1, hs, getu4At, h2, if_true, unquoteBody_skip]
  simp [hd]

/-- The text of a JSON string reads back as the string it spells. -/
theorem unquoteBody_stringLiteral (lit a : List Char) (h : StringLiteral lit a) :
    unquoteBody 0 lit = some a := by
  induction h with
  | nil => simp [unquoteBody]
  | unescaped c lit a hc _ ih =>
    rw [unquoteBody_plain c lit hc.1 hc.2.1 hc.2.2, ih]; rfl
  | escape x c lit a hx _ ih =>
    rw [unquoteBody_escape x c lit hx, ih]; rfl
  | unicode x1 x2 x3 x4 rr lit a hg hs _ ih =>
    rw [unquoteBody_unicode _ _ _ _ _ _ hg hs, ih]; rfl
  | surrogates x1 x2 x3 x4 y1 y2 y3 y4 hi lo dec lit a hg1 hg2 hd _ ih =>
    rw [unquoteBody_surrogates _ _ _ _ _ _ _ _ _ _ _ _ hg1 hg2 hd, ih]; rfl

/-- What `appendString` writes for a character is the text of a JSON string for that
character. -/
theorem stringLiteral_appendStringChar (c : Char) (lit a : List Char)
    (h : StringLiteral lit a) : StringLiteral (appendStringChar c ++ lit) (c :: a) := by
  unfold appendStringChar
  split_ifs with h1 h2 h3 h4 h5 h6 h7 h8 h9
  · exact StringLiteral.unescaped c lit a (htmlSafeSet_plain c h2) h
  · rcases h3 with h3 | h3 <;> subst h3 <;> exact StringLiteral.escape _ _ lit a rfl h
  · subst h4; exact StringLiteral.escape 'b' _ lit a rfl h
  · subst h5; exact StringLiteral.escape 'f' _ lit a rfl h
  · subst h6; exact StringLiteral.escape 'n' _ lit a rfl h
  · subst h7; exact StringLiteral.escape 'r' _ lit a rfl h
  · subst h8; exact StringLiteral.escape 't' _ lit a rfl h
  · have a1 := hexValue_hex (c.toNat / 16) (by omega)
    have a2 := hexValue_hex (c.toNat % 16) (by omega)
    have z0 : hexValue '0' = some 0 := rfl
    have hg : getu4 '0' '0' (hex (c.toNat / 16)) (hex (c.toNat % 16)) = some c.toNat := by
      simp only [getu4, a1, a2, z0, Option.some.injEq]
      omega
    have hs : isSurrogate c.toNat = false := by
      simp [isSurrogate]; omega
    have := StringLiteral.unicode _ _ _ _ _ lit a hg hs h
    rwa [Char.ofNat_toNat] at this
  · have a2 := hexValue_hex (c.toNat % 16) (by omega)
    have z0 : hexValue '0' = some 0 := rfl
    have z2 : hexValue '2' = some 2 := rfl
    have hcv : c.toNat = 8232 ∨ c.toNat = 8233 := by
      rcases h9 with h9 | h9 <;> rw [h9] <;> decide
    have hg : getu4 '2' '0' '2' (hex (c.toNat % 16)) = some c.toNat := by
      simp only [getu4, a2, z0, z2, Option.some.injEq]
      omega
    have hs : isSurrogate c.toNat = false := by
      simp [isSurrogate]; omega
    have := StringLiteral.unicode _ _ _ _ _ lit a hg hs h
    rwa [Char.ofNat_toNat] at this
  · exact StringLiteral.unescaped c lit a (nonASCII_plain c h1) h

/-- What `appendString` writes between the quotes is a JSON string that spells the source.
-/
theorem stringLiteral_escapeString (a : List Char) : StringLiteral (escapeString a) a := by
  induction a with
  | nil => exact StringLiteral.nil
  | cons c a ih =>
    simp only [escapeString, List.map_cons, List.flatten_cons] at ih ⊢
    exact stringLiteral_appendStringChar c _ a ih

/-- A text of plain characters is a JSON string that spells itself. -/
theorem stringLiteral_plain (a : List Char) (h : ∀ c ∈ a, plainChar c) : StringLiteral a a := by
  induction a with
  | nil => exact StringLiteral.nil
  | cons c a ih =>
    exact StringLiteral.unescaped c a a (h c (List.mem_cons_self _ _))
      (ih (fun x hx => h x (List.mem_cons_of_mem _ hx)))

/-- `unquoteBytes` on a text between two double quotes. -/
theorem unquoteBytes_quoted (body : List Char) :
    unquoteBytes ('"' :: (body ++ ['"'])) = unquoteBody 0 body := by
  unfold unquoteBytes
  have h1 : ¬ (('"' :: (body ++ ['"'])).length < 2) := by simp
  have h2 : ('"' :: (body ++ ['"'])).getLast? = some '"' := by
    rw [← List.cons_append, List.getLast?_append]; simp
  simp [h2]

/-- `Time.UnmarshalJSON` on a text between two double quotes. -/
theorem Time.UnmarshalJSON_quoted (t0 : Time) (ts : List Char) :
    t0.UnmarshalJSON ('"' :: (ts ++ ['"'])) =
      match parseStrictRFC3339 ts with
      | .ok t1 => (t1, none)
      | .error err => (Time.zero, some err) := by
  unfold Time.UnmarshalJSON
  have h0 : ('"' :: (ts ++ ['"'])) ≠ "null".data := by
    intro h; exact absurd (List.head_eq_of_cons_eq h) (by decide)
  have h2 : ('"' :: (ts ++ ['"'])).getLast? = some '"' := by
    rw [← List.cons_append, List.getLast?_append]; simp
  simp [h0, h2]

/-- The value of `access_token`, written by `appendString`, is stored as the access token.
-/
theorem decodeValue_accessToken (lit a tail : List Char) (d : DecodeState)
    (hl : StringLiteral lit a) :
    decodeValue (some .accessToken) ('"' :: (lit ++ '"' :: tail)) d
      = ({ d with token := { d.token with AccessToken := String.mk a } }, tail, none) := by
  simp only [decodeValue, rescanLiteral, rescanString_stringLiteral lit a tail hl]
  simp [unquoteBytes_quoted, unquoteBody_stringLiteral lit a hl]

/-- The value of `expires_at`, a plain text that `parseStrictRFC3339` takes, is stored as
the expiry. -/
theorem decodeValue_expiresAt (ts tail : List Char) (d : DecodeState) (t : Time)
    (hp : ∀ c ∈ ts, plainChar c) (ht : parseStrictRFC3339 ts = .ok t) :
    decodeValue (some .expiresAt) ('"' :: (ts ++ '"' :: tail)) d
      = ({ d with token := { d.token with ExpiresAt := t } }, tail, none) := by
  simp only [decodeValue, rescanLiteral, rescanString_plain ts tail hp]
  simp [Time.UnmarshalJSON_quoted, ht]

/-- `skipSpace` stops at a character that is no space. -/
theorem skipSpace_cons (c : Char) (r : List Char) (h : isSpace c = false) :
    skipSpace (c :: r) = c :: r := by
  simp [skipSpace, List.dropWhile_cons, h]

/-- The loop of `decodeState.object` over the two members of a token object. -/
theorem decodeObject_tokenMembers (fuel : Nat) (lit a ts tail : List Char) (d : DecodeState)
    (t : Time) (hl : StringLiteral lit a) (hp : ∀ c ∈ ts, plainChar c)
    (ht : parseStrictRFC3339 ts = .ok t) :
    decodeObject (fuel + 2) (tokenMembers lit ts tail) d
      = ({ d with token := { AccessToken := String.mk a, ExpiresAt := t } }, none) := by
  have hk1 : ∀ c ∈ "access_token".data, plainChar c := by decide
  have hk2 : ∀ c ∈ "expires_at".data, plainChar c := by decide
  have q : isSpace '"' = false := rfl
  have q2 : isSpace ':' = false := rfl
  have q3 : isSpace ',' = false := rfl
  have q4 : isSpace '}' = false := rfl
  have u1 : unquoteBytes ('"' :: ("access_token".data ++ ['"'])) = some "access_token".data := by
    rfl
  have u2 : unquoteBytes ('"' :: ("expires_at".data ++ ['"'])) = some "expires_at".data := by
    rfl
  have f1 : findField "access_token".data = some .accessToken := rfl
  have f2 : findField "expires_at".data = some .expiresAt := rfl
  unfold tokenMembers
  rw [decodeObject]
  simp only [skipSpace_cons _ _ q, rescanString_plain _ _ hk1, u1, f1, skipSpace_cons _ _ q2,
    decodeValue_accessToken _ _ _ _ hl, skipSpace_cons _ _ q3]
  simp only [show ('"' : Char) ≠ '}' by decide, show (':' : Char) = ':' from rfl,
    show (',' : Char) ≠ '}' by decide, if_true, if_false]
  rw [decodeObject]
  simp only [skipSpace_cons _ _ q, rescanString_plain _ _ hk2, u2, f2, skipSpace_cons _ _ q2,
    decodeValue_expiresAt _ _ _ _ hp ht, skipSpace_cons _ _ q4]
  simp only [show ('"' : Char) ≠ '}' by decide, show (':' : Char) = ':' from rfl, if_true,
    if_false]

/-- A token object is valid JSON. -/
theorem checkValid_tokenMembers (lit a ts : List Char) (hl : StringLiteral lit a)
    (hp : ∀ c ∈ ts, plainChar c) : checkValid ('{' :: tokenMembers lit ts []) = none := by
  have hk1 : ∀ c ∈ "access_token".data, plainChar c := by decide
  have hk2 : ∀ c ∈ "expires_at".data, plainChar c := by decide
  have s1 : (Scanner.reset.apply '{').apply '"'
      = ⟨.stateInString, false, [.parseObjectKey], none⟩ := rfl
  have s2 : ((Scanner.mk .stateInString false [.parseObjectKey] none).apply '"').apply ':'
      = ⟨.stateBeginValue, false, [.parseObjectValue], none⟩ := rfl
  have s3 : (Scanner.mk .stateBeginValue false [.parseObjectValue] none).apply '"'
      = ⟨.stateInString, false, [.parseObjectValue], none⟩ := rfl
  have s4 : (((Scanner.mk .stateInString false [.parseObjectValue] none).apply '"').apply ',').apply
      '"' = ⟨.stateInString, false, [.parseObjectKey], none⟩ := rfl
  have s5 : ((Scanner.mk .stateInString false [.parseObjectValue] none).apply '"').apply '}'
      = ⟨.stateEndTop, true, [], none⟩ := rfl
  unfold checkValid tokenMembers
  simp only [foldl_apply_cons, List.foldl_append, s1, scan_plain _ _ _ _ hk1, s2, s3,
    scan_stringLiteral _ _ _ lit a hl, s4, scan_plain _ _ _ _ hk2, scan_plain _ _ _ _ hp, s5, List.foldl_nil]
  rfl

/-- `json.Unmarshal` on a token object whose expiry text is plain and taken by
`parseStrictRFC3339`. -/
theorem jsonUnmarshal_tokenMembers (lit a ts : List Char) (token : OAuthToken) (t : Time)
    (hl : StringLiteral lit a) (hp : ∀ c ∈ ts, plainChar c)
    (ht : parseStrictRFC3339 ts = .ok t) :
    jsonUnmarshal (String.mk ('{' :: tokenMembers lit ts [])) token
      = ({ AccessToken := String.mk a, ExpiresAt := t }, none) := by
  unfold jsonUnmarshal
  simp only [checkValid_tokenMembers lit a ts hl hp]
  have hlen : ∃ n, ('{' :: tokenMembers lit ts []).length = n + 2 := by
    refine ⟨(tokenMembers lit ts []).length - 1, ?_⟩
    simp [tokenMembers]
  obtain ⟨n, hn⟩ := hlen
  have q : isSpace '{' = false := rfl
  simp only [skipSpace_cons _ _ q, hn, decodeObject_tokenMembers n lit a ts [] _ t hl hp ht, if_true]

/-- The function `daysIn` gives the days RFC 3339 lists for a month. -/
theorem daysIn_eq_daysOfMonth (year month : Nat) (h1 : 1 ≤ month) (h2 : month ≤ 12) :
    daysIn month (year : Int) = Timestamp.daysOfMonth year month := by
  have hl : isLeap (year : Int) = decide (year % 4 = 0 ∧ (year % 100 ≠ 0 ∨ year % 400 = 0)) := by
    unfold isLeap
    congr 1
    apply propext
    omega
  unfold daysIn Timestamp.daysOfMonth
  interval_cases month <;> simp [daysBefore, hl]

/-- The character of a decimal digit is a digit. -/
theorem digit_isDigitChar (d : Nat) (h : d < 10) : isDigitChar (Char.ofNat (48 + d)) = true := by
  simp only [isDigitChar, decide_eq_true_eq, char_le_iff, digit_toNat d h]
  constructor
  · show 48 ≤ 48 + d; omega
  · show 48 + d ≤ 57; omega

/-- The character of a decimal digit is plain. -/
theorem digit_plain (d : Nat) (h : d < 10) : plainChar (Char.ofNat (48 + d)) := by
  refine ⟨?_, ?_, ?_⟩
  · rw [Ne, char_eq_iff, digit_toNat d h]; simp; omega
  · rw [Ne, char_eq_iff, digit_toNat d h]; simp; omega
  · rw [digit_toNat d h]; omega

/-- `parseUint` reads two digits as their number, when that is in range. -/
theorem parseUint_twoDigits (n lo hi : Nat) (h : n < 100) (h1 : lo ≤ n) (h2 : n ≤ hi) :
    parseUint (twoDigits n) lo hi = some n := by
  have a1 := digit_isDigitChar (n / 10) (by omega)
  have a2 := digit_isDigitChar (n % 10) (by omega)
  have b1 := digit_toNat (n / 10) (by omega)
  have b2 := digit_toNat (n % 10) (by omega)
  have hv : digitsValue (twoDigits n) = n := by
    simp only [digitsValue, twoDigits, List.foldl_cons, List.foldl_nil, b1, b2]
    omega
  unfold parseUint
  rw [hv]
  simp only [twoDigits, List.all_cons, List.all_nil, a1, a2, Bool.and_self, if_true]
  have : ¬ (n < lo ∨ hi < n) := by omega
  simp [this]

/-- `parseUint` reads four digits as their number. -/
theorem parseUint_fourDigits (n : Nat) (h : n ≤ 9999) :
    parseUint (fourDigits n) 0 9999 = some n := by
  have a1 := digit_isDigitChar (n / 1000) (by omega)
  have a2 := digit_isDigitChar (n / 100 % 10) (by omega)
  have a3 := digit_isDigitChar (n / 10 % 10) (by omega)
  have a4 := digit_isDigitChar (n % 10) (by omega)
  have b1 := digit_toNat (n / 1000) (by omega)
  have b2 := digit_toNat (n / 100 % 10) (by omega)
  have b3 := digit_toNat (n / 10 % 10) (by omega)
  have b4 := digit_toNat (n % 10) (by omega)
  have hv : digitsValue (fourDigits n) = n := by
    simp only [digitsValue, fourDigits, List.foldl_cons, List.foldl_nil, b1, b2, b3, b4]
    omega
  unfold parseUint
  rw [hv]
  simp only [fourDigits, List.all_cons, List.all_nil, a1, a2, a3, a4, Bool.and_self, if_true]
  simp [h]

/-- The zone part of `parseRFC3339` reads the text of a zone as its offset. -/
theorem parseZoneRFC3339_zoneChars (z : Option (Bool × Nat × Nat))
    (hz : Timestamp.zoneWellFormed z) :
    parseZoneRFC3339 (Timestamp.zoneChars z) = some (Timestamp.offset z) := by
  match z with
  | none => simp [Timestamp.zoneChars, parseZoneRFC3339, Timestamp.offset]
  | some (negative, hh, mm) =>
    obtain ⟨h1, h2⟩ := hz
    have p1 := parseUint_twoDigits hh 0 23 (by omega) (by omega) h1
    have p2 := parseUint_twoDigits mm 0 59 (by omega) (by omega) h2
    have e1 : (List.drop 1 (Timestamp.zoneChars (some (negative, hh, mm)))).take 2 = twoDigits hh := by
      simp [Timestamp.zoneChars, twoDigits]
    have e2 : (List.drop 4 (Timestamp.zoneChars (some (negative, hh, mm)))).take 2 = twoDigits mm := by
      simp [Timestamp.zoneChars, twoDigits]
    have e3 : (Timestamp.zoneChars (some (negative, hh, mm))).length = 6 := by
      simp [Timestamp.zoneChars, twoDigits]
    have e4 : Timestamp.zoneChars (some (negative, hh, mm)) ≠ ['Z'] := by
      intro h; rw [h] at e3; simp at e3
    have e5 : (Timestamp.zoneChars (some (negative, hh, mm))).get? 0
        = some (if negative then '-' else '+') := by
      simp [Timestamp.zoneChars]
    have e6 : (Timestamp.zoneChars (some (negative, hh, mm))).get? 3 = some ':' := by
      simp [Timestamp.zoneChars, twoDigits]
    unfold parseZoneRFC3339
    simp only [e1, e2, e3, e4, e5, e6, p1, p2, if_false, ne_eq, not_true_eq_false]
    cases negative <;> simp [Timestamp.offset] <;> omega

/-- The run of digits at the head of digits followed by something that is no digit. -/
theorem takeWhile_digits (ds : List Nat) (z : List Char) (hd : ∀ d ∈ ds, d ≤ 9)
    (hz : (z.head?.any isDigitChar) = false) :
    ((ds.map (fun x => Char.ofNat (48 + x))) ++ z).takeWhile isDigitChar
      = ds.map (fun x => Char.ofNat (48 + x)) := by
  induction ds with
  | nil =>
    cases z with
    | nil => rfl
    | cons c z => simp at hz; simp [List.takeWhile_cons, hz]
  | cons d ds ih =>
    have hd0 := digit_isDigitChar d (by have := hd d (List.mem_cons_self _ _); omega)
    simp only [List.map_cons, List.cons_append, List.takeWhile_cons, hd0, if_true]
    rw [ih (fun x hx => hd x (List.mem_cons_of_mem _ hx))]

/-- The value of a run of digit characters. -/
theorem digitsValue_digits (ds : List Nat) (hd : ∀ d ∈ ds, d ≤ 9) :
    digitsValue (ds.map (fun x => Char.ofNat (48 + x))) = Nat.ofDigits 10 ds.reverse := by
  have key : ∀ (ds : List Nat) (x : Nat), (∀ d ∈ ds, d ≤ 9) →
      (ds.map (fun x => Char.ofNat (48 + x))).foldl (fun x c => x * 10 + (c.toNat - 48)) x
        = x * 10 ^ ds.length + Nat.ofDigits 10 ds.reverse := by
    intro ds
    induction ds with
    | nil => intro x _; simp
    | cons d ds ih =>
      intro x hd
      have hd0 : d ≤ 9 := hd d (List.mem_cons_self _ _)
      simp only [List.map_cons, List.foldl_cons, List.reverse_cons, List.length_cons]
      rw [ih _ (fun y hy => hd y (List.mem_cons_of_mem _ hy)), digit_toNat d (by omega),
        Nat.ofDigits_append, List.length_reverse]
      simp only [Nat.ofDigits_singleton]
      have : 48 + d - 48 = d := by omega
      rw [this]
      ring
  have := key ds 0 hd
  simpa [digitsValue] using this

/-- The first nine digits of a fraction, scaled, are its whole nanoseconds. -/
theorem nanos_eq (ds : List Nat) (hd : ∀ d ∈ ds, d ≤ 9) :
    Nat.ofDigits 10 (ds.take 9).reverse * 10 ^ (9 - (ds.take 9).length)
      = Timestamp.nanos ds := by
  unfold Timestamp.nanos
  by_cases hk : ds.length ≤ 9
  · rw [List.take_of_length_le hk]
    have : (10:Nat) ^ 9 = 10 ^ (9 - ds.length) * 10 ^ ds.length := by
      rw [← pow_add]; congr 1; omega
    rw [this, ← Nat.mul_assoc, Nat.mul_div_cancel _ (by positivity)]
  · have hk' : 9 < ds.length := by omega
    have hlen : (ds.take 9).length = 9 := by simp; omega
    rw [hlen]
    simp only [Nat.sub_self, pow_zero, Nat.mul_one]
    conv_rhs => rw [← List.take_append_drop 9 ds]
    rw [List.reverse_append, Nat.ofDigits_append, List.length_reverse, List.length_append, hlen]
    have hR : Nat.ofDigits 10 (ds.drop 9).reverse < 10 ^ (ds.drop 9).length := by
      have := Nat.ofDigits_lt_base_pow_length (b := 10) (l := (ds.drop 9).reverse) (by omega)
        (by
          intro x hx
          have hx' : x ∈ ds := List.mem_of_mem_drop (List.mem_reverse.mp hx)
          have := hd x hx'
          omega)
      simpa using this
    have hp : (10:Nat) ^ (9 + (ds.drop 9).length) = 10 ^ (ds.drop 9).length * 10 ^ 9 := by
      rw [pow_add]; ring
    rw [hp]
    rw [Nat.mul_div_mul_right _ _ (by positivity)]
    rw [Nat.add_mul_div_left _ _ (by positivity), Nat.div_eq_of_lt hR]
    simp

/-- The text of a zone starts with a character that is neither a digit nor a period. -/
theorem zoneChars_head (z : Option (Bool × Nat × Nat)) :
    ∃ c r, Timestamp.zoneChars z = c :: r ∧ isDigitChar c = false ∧ c ≠ '.' := by
  match z with
  | none => exact ⟨'Z', [], rfl, rfl, by decide⟩
  | some (negative, hh, mm) =>
    cases negative
    · exact ⟨'+', _, rfl, rfl, by decide⟩
    · exact ⟨'-', _, rfl, rfl, by decide⟩

/-- `parseNanoseconds` reads a period and digits as the whole nanoseconds of the fraction.
-/
theorem parseNanoseconds_digits (L : List Nat) (z : List Char) (hd : ∀ d ∈ L, d ≤ 9) :
    parseNanoseconds ('.' :: (L.map (fun x => Char.ofNat (48 + x)) ++ z)) (1 + L.length)
      = Timestamp.nanos L := by
  rw [← nanos_eq L hd]
  unfold parseNanoseconds
  by_cases hk : L.length ≤ 9
  · have h1 : ¬ (1 + L.length > 10) := by omega
    simp only [h1, if_false]
    have h2 : 1 + L.length = L.length + 1 := by omega
    rw [h2, List.take_succ_cons, List.drop_succ_cons, List.drop_zero]
    rw [List.take_append_of_le_length (by simp), List.take_of_length_le (by simp),
      digitsValue_digits L hd, List.take_of_length_le hk]
    congr 2
    omega
  · have h1 : (1 + L.length > 10) := by omega
    simp only [h1, if_true]
    rw [show (10 : Nat) = 9 + 1 from rfl, List.take_succ_cons, List.drop_succ_cons, List.drop_zero]
    rw [List.take_append_of_le_length (by simp; omega), ← List.map_take,
      digitsValue_digits _ (fun d hd' => hd d (List.mem_of_mem_take hd'))]
    have : (List.take 9 L).length = 9 := by simp; omega
    rw [this]

/-- The fraction part of `parseRFC3339` reads the text of a fraction and leaves the zone. -/
theorem parseFractionRFC3339_text (L : List Nat) (z : Option (Bool × Nat × Nat))
    (hd : ∀ d ∈ L, d ≤ 9) :
    parseFractionRFC3339 (Timestamp.fractionChars L ++ Timestamp.zoneChars z)
      = (Timestamp.nanos L, Timestamp.zoneChars z) := by
  obtain ⟨c, r, hz, hc, hc'⟩ := zoneChars_head z
  cases L with
  | nil =>
    have : ¬ (c = '.') := hc'
    simp [Timestamp.fractionChars, hz, parseFractionRFC3339, this, Timestamp.nanos]
  | cons d ds =>
    have hd0 := digit_isDigitChar d (by have := hd d (List.mem_cons_self _ _); omega)
    have htw := takeWhile_digits (d :: ds) (Timestamp.zoneChars z) hd (by simp [hz, hc])
    have hcond : (('.' :: ((d :: ds).map (fun x => Char.ofNat (48 + x)) ++ Timestamp.zoneChars z)).length ≥ 2
        ∧ ('.' :: ((d :: ds).map (fun x => Char.ofNat (48 + x)) ++ Timestamp.zoneChars z)).get? 0 = some '.'
        ∧ (('.' :: ((d :: ds).map (fun x => Char.ofNat (48 + x)) ++ Timestamp.zoneChars z)).get? 1).any
            isDigitChar = true) := by
      simp [hd0]
    unfold parseFractionRFC3339
    simp only [Timestamp.fractionChars, List.cons_append]
    rw [if_pos hcond]
    simp only [List.drop_succ_cons, List.drop_zero, htw]
    rw [List.length_map, parseNanoseconds_digits (d :: ds) _ hd]
    congr 1
    have : 1 + (d :: ds).length = (d :: ds).length + 1 := by omega
    rw [this, List.drop_succ_cons]
    rw [List.drop_append_of_le_length (by simp)]
    simp

/-- `parseRFC3339` reads the text of a well-formed timestamp whose second is below 60 as the
time it denotes. -/
theorem parseRFC3339_text (f : Timestamp) (hw : f.WellFormed) (hs : f.second ≤ 59) :
    parseRFC3339 f.text = some f.time := by
  obtain ⟨hy, hm1, hm2, hd1, hd2, hh, hmi, -, hfrac, hzone⟩ := hw
  rw [← daysIn_eq_daysOfMonth _ _ hm1 hm2] at hd2
  have hd3 : f.day < 100 := by
    have : daysIn f.month f.year ≤ 31 := daysIn_le _ _ hm1 hm2
    omega
  have p1 := parseUint_fourDigits f.year hy
  have p2 := parseUint_twoDigits f.month 1 12 (by omega) hm1 hm2
  have p3 := parseUint_twoDigits f.day 1 (daysIn f.month f.year) hd3 hd1 hd2
  have p4 := parseUint_twoDigits f.hour 0 23 (by omega) (by omega) hh
  have p5 := parseUint_twoDigits f.minute 0 59 (by omega) (by omega) hmi
  have p6 := parseUint_twoDigits f.second 0 59 (by omega) (by omega) hs
  have e0 : ¬ (f.text.length < 19) := by
    simp [Timestamp.text, fourDigits, twoDigits]
  have e1 : f.text.take 4 = fourDigits f.year := by
    simp [Timestamp.text, fourDigits, twoDigits]
  have e2 : (f.text.drop 5).take 2 = twoDigits f.month := by
    simp [Timestamp.text, fourDigits, twoDigits]
  have e3 : (f.text.drop 8).take 2 = twoDigits f.day := by
    simp [Timestamp.text, fourDigits, twoDigits]
  have e4 : (f.text.drop 11).take 2 = twoDigits f.hour := by
    simp [Timestamp.text, fourDigits, twoDigits]
  have e5 : (f.text.drop 14).take 2 = twoDigits f.minute := by
    simp [Timestamp.text, fourDigits, twoDigits]
  have e6 : (f.text.drop 17).take 2 = twoDigits f.second := by
    simp [Timestamp.text, fourDigits, twoDigits]
  have e7 : f.text.get? 4 = some '-' ∧ f.text.get? 7 = some '-' ∧ f.text.get? 10 = some 'T'
      ∧ f.text.get? 13 = some ':' ∧ f.text.get? 16 = some ':' := by
    simp [Timestamp.text, fourDigits, twoDigits]
  have e8 : f.text.drop 19
      = Timestamp.fractionChars f.secfrac ++ Timestamp.zoneChars f.zone := by
    simp [Timestamp.text, fourDigits, twoDigits]
  unfold parseRFC3339
  rw [if_neg e0]
  simp only [e1, e2, p1, p2, e3, e4, e5, e6, p3, p4, p5, p6]
  rw [if_pos e7, e8, parseFractionRFC3339_text _ _ hfrac,
    parseZoneRFC3339_zoneChars _ hzone]
  rfl

/-- Two digits are plain characters. -/
theorem twoDigits_plain (n : Nat) (h : n < 100) : ∀ c ∈ twoDigits n, plainChar c := by
  intro c hc
  simp only [twoDigits, List.mem_cons, List.mem_singleton, List.not_mem_nil, or_false] at hc
  rcases hc with hc | hc <;> subst hc
  · exact digit_plain _ (by omega)
  · exact digit_plain _ (by omega)

/-- Four digits are plain characters. -/
theorem fourDigits_plain (n : Nat) (h : n < 10000) : ∀ c ∈ fourDigits n, plainChar c := by
  intro c hc
  simp only [fourDigits, List.mem_cons, List.mem_singleton, List.not_mem_nil, or_false] at hc
  rcases hc with hc | hc | hc | hc <;> subst hc
  · exact digit_plain _ (by omega)
  · exact digit_plain _ (by omega)
  · exact digit_plain _ (by omega)
  · exact digit_plain _ (by omega)

/-- The text of a fraction holds plain characters. -/
theorem fractionChars_plain (L : List Nat) (hd : ∀ d ∈ L, d ≤ 9) :
    ∀ c ∈ Timestamp.fractionChars L, plainChar c := by
  intro c hc
  cases L with
  | nil => simp [Timestamp.fractionChars] at hc
  | cons d ds =>
    simp only [Timestamp.fractionChars, List.mem_cons, List.mem_map] at hc
    rcases hc with hc | ⟨x, hx, hc⟩
    · subst hc; decide
    · subst hc
      exact digit_plain x (by have := hd x (List.mem_cons.mpr hx); omega)

/-- The text of a zone holds plain characters. -/
theorem zoneChars_plain (z : Option (Bool × Nat × Nat)) (hz : Timestamp.zoneWellFormed z) :
    ∀ c ∈ Timestamp.zoneChars z, plainChar c := by
  intro c hc
  match z with
  | none =>
    simp only [Timestamp.zoneChars, List.mem_singleton] at hc
    subst hc; decide
  | some (negative, hh, mm) =>
    obtain ⟨h1, h2⟩ := hz
    simp only [Timestamp.zoneChars, List.mem_cons, List.mem_append] at hc
    rcases hc with hc | hc | hc | hc
    · subst hc; cases negative <;> decide
    · exact twoDigits_plain hh (by omega) c hc
    · subst hc; decide
    · exact twoDigits_plain mm (by omega) c hc

/-- The text of a well-formed timestamp holds plain characters. -/
theorem Timestamp.text_plain (f : Timestamp) (hw : f.WellFormed) :
    ∀ c ∈ f.text, plainChar c := by
  obtain ⟨hy, hm1, hm2, hd1, hd2, hh, hmi, hs, hfrac, hzone⟩ := hw
  rw [← daysIn_eq_daysOfMonth _ _ hm1 hm2] at hd2
  have hd3 : f.day < 100 := by
    have : daysIn f.month f.year ≤ 31 := daysIn_le _ _ hm1 hm2
    omega
  intro c hc
  simp only [Timestamp.text, List.mem_cons, List.mem_append] at hc
  rcases hc with hc | hc | hc | hc | hc | hc | hc | hc | hc | hc | hc | hc | hc
  · exact fourDigits_plain _ (by omega) c hc
  · subst hc; decide
  · exact twoDigits_plain _ (by omega) c hc
  · subst hc; decide
  · exact twoDigits_plain _ hd3 c hc
  · subst hc; decide
  · exact twoDigits_plain _ (by omega) c hc
  · subst hc; decide
  · exact twoDigits_plain _ (by omega) c hc
  · subst hc; decide
  · exact twoDigits_plain _ (by omega) c hc
  · exact fractionChars_plain _ hfrac c hc
  · exact zoneChars_plain _ hzone c hc

/-- A token document is an opening brace and the token members. -/
theorem tokenDocument_eq (literal expiry : List Char) :
    tokenDocument literal expiry = String.mk ('{' :: tokenMembers literal expiry []) := by
  apply String.ext
  simp [tokenDocument, tokenMembers]

/-- `json.Unmarshal` on a token document with the text of a well-formed timestamp whose
second is below 60. -/
theorem jsonUnmarshal_tokenDocument (lit a : List Char) (f : Timestamp)
    (hl : StringLiteral lit a) (hw : f.WellFormed) (hs : f.second ≤ 59) (token : OAuthToken) :
    jsonUnmarshal (tokenDocument lit f.text) token
      = ({ AccessToken := String.mk a, ExpiresAt := f.time }, none) := by
  rw [tokenDocument_eq]
  have ht : parseStrictRFC3339 f.text = .ok f.time := by
    simp [parseStrictRFC3339, parseRFC3339_text f hw hs]
  exact jsonUnmarshal_tokenMembers lit a f.text token f.time hl (f.text_plain hw) ht

/-- The fields of a time with a year in 0..9999 and an offset below a day are well formed.
-/
theorem Time.timestamp_wellFormed (t : Time) (hv : t.Valid) (hy0 : 0 ≤ t.year)
    (hy1 : t.year ≤ 9999) (ho : t.offset.natAbs < 86400) : t.timestamp.WellFormed := by
  obtain ⟨hm1, hm2, hd1, hd2, hh, hmi, hs, -⟩ := hv
  have hyear : ((t.year.toNat : Nat) : Int) = t.year := Int.toNat_of_nonneg hy0
  refine ⟨by simp only [Time.timestamp]; omega, hm1, hm2, hd1, ?_, by simp only [Time.timestamp]; omega,
    by simp only [Time.timestamp]; omega, by simp only [Time.timestamp]; omega, by simp [Time.timestamp], ?_⟩
  · have := daysIn_eq_daysOfMonth t.year.toNat t.month hm1 hm2
    rw [hyear] at this
    simp only [Time.timestamp]
    rw [← this]; exact hd2
  · simp only [Time.timestamp]
    split_ifs
    · trivial
    · exact ⟨by omega, by omega⟩

/-- For an offset of whole minutes the text of the fields is the reading at second precision
and the zone. -/
theorem Time.timestamp_text (t : Time) (ho : t.offset % 60 = 0) :
    t.timestamp.text = t.secondsText ++ t.zoneText := by
  simp only [Timestamp.text, Time.timestamp, Time.secondsText, Time.zoneText,
    Timestamp.fractionChars, List.nil_append, List.append_assoc, List.cons_append,
    List.singleton_append]
  congr 6
  by_cases h0 : t.offset = 0
  · simp [h0, Timestamp.zoneChars]
  · have : (t.offset < 0) ↔ t.offset ≤ -60 := by omega
    simp only [h0, if_false, Timestamp.zoneChars, this, decide_eq_true_eq, List.cons_append,
      List.nil_append]

/-- The fields of a whole second in a zone of whole minutes denote that time. -/
theorem Time.timestamp_time (t : Time) (hn : t.nsec = 0) (hy0 : 0 ≤ t.year)
    (ho : t.offset % 60 = 0) : t.timestamp.time = t := by
  have hyear : ((t.year.toNat : Nat) : Int) = t.year := Int.toNat_of_nonneg hy0
  have hoff : Timestamp.offset t.timestamp.zone = t.offset := by
    simp only [Time.timestamp]
    by_cases h0 : t.offset = 0
    · simp [h0, Timestamp.offset]
    · simp only [h0, if_false, Timestamp.offset, decide_eq_true_eq]
      split_ifs <;> omega
  cases t
  simp only [Timestamp.time, hoff]
  simp only [Time.timestamp] at *
  subst hn
  simp [hyear, Timestamp.nanos]

/-- `skipSpace` gives back no more than it was given. -/
theorem skipSpace_length (l : List Char) : (skipSpace l).length ≤ l.length := by
  unfold skipSpace
  exact (List.dropWhile_sublist _).length_le

/-- What `rescanString` leaves is no longer than its text. -/
theorem rescanString_length (l : List Char) : (rescanString l).2.length ≤ l.length := by
  have key : ∀ n (l : List Char), l.length ≤ n → (rescanString l).2.length ≤ l.length := by
    intro n
    induction n with
    | zero =>
      intro l hl
      cases l with
      | nil => simp [rescanString]
      | cons c r => simp at hl
    | succ n ih =>
      intro l hl
      cases l with
      | nil => simp [rescanString]
      | cons c r =>
        rw [rescanString_cons]
        split_ifs
        · simp
        · cases r with
          | nil => simp
          | cons e r1 =>
            have := ih r1 (by simp at hl; omega)
            simp only [List.length_cons]
            omega
        · have := ih r (by simp at hl; omega)
          simp only [List.length_cons]
          omega
  exact key l.length l (Nat.le_refl _)

/-- What `rescanLiteral` leaves is no longer than its text. -/
theorem rescanLiteral_length (l : List Char) : (rescanLiteral l).2.length ≤ l.length := by
  unfold rescanLiteral
  cases l with
  | nil => simp
  | cons c r =>
    simp only
    split_ifs
    · have := rescanString_length r
      simp only [List.length_cons]; omega
    · simp only [List.length_drop]; omega
    · simp only [List.length_drop]; omega
    · simp only [List.length_drop]; omega
    · have := (List.dropWhile_sublist isNumberChar (l := r)).length_le
      simp only [List.length_cons]; omega

/-- What `skipComposite` leaves is no longer than its text. -/
theorem skipComposite_length (s : Scanner) (l : List Char) :
    (skipComposite s l).2.length ≤ l.length := by
  induction l generalizing s with
  | nil => simp [skipComposite]
  | cons c r ih =>
    simp only [skipComposite]
    split_ifs
    · simp
    · have := ih (s.apply c)
      simp only [List.length_cons]; omega

/-- What `decodeValue` leaves is what the skip of the value leaves, whatever the field. -/
theorem decodeValue_rest (field : Option TokenField) (c : Char) (r : List Char)
    (d : DecodeState) :
    (decodeValue field (c :: r) d).2.1
      = if (decide (c = '{' ∨ c = '[')) = true then (skipComposite Scanner.reset (c :: r)).2
        else (rescanLiteral (c :: r)).2 := by
  unfold decodeValue
  cases field with
  | none => rfl
  | some fld =>
    cases fld with
    | accessToken =>
      simp only
      split_ifs <;> first | rfl | (split <;> rfl)
    | expiresAt => rfl

/-- What `decodeValue` leaves is no longer than its text. -/
theorem decodeValue_length (field : Option TokenField) (l : List Char) (d : DecodeState) :
    (decodeValue field l d).2.1.length ≤ l.length := by
  cases l with
  | nil => simp [decodeValue]
  | cons c r =>
    rw [decodeValue_rest]
    have h1 := skipComposite_length Scanner.reset (c :: r)
    have h2 := rescanLiteral_length (c :: r)
    split_ifs <;> assumption

/-- The loop of `decodeState.object` never runs out of steps when it is given more of
them than the text has characters: one more step changes nothing. -/
theorem decodeObject_fuel (fuel : Nat) (data : List Char) (d : DecodeState)
    (h : data.length < fuel) : decodeObject (fuel + 1) data d = decodeObject fuel data d := by
  induction fuel generalizing data d with
  | zero => omega
  | succ n ih =>
    rw [decodeObject, decodeObject]
    have hs := skipSpace_length data
    cases h0 : skipSpace data with
    | nil => rfl
    | cons c rest =>
      rw [h0] at hs
      simp only [List.length_cons] at hs
      simp only
      split_ifs with hc1 hc2
      · rfl
      · cases unquoteBytes (c :: (rescanString rest).1) with
        | none => rfl
        | some key =>
          simp only
          have hr := rescanString_length rest
          have hs1 := skipSpace_length (rescanString rest).2
          cases h1 : skipSpace (rescanString rest).2 with
          | nil => rfl
          | cons colon rest1 =>
            rw [h1] at hs1
            simp only [List.length_cons] at hs1
            simp only
            split_ifs with hcolon
            · have hs2 := skipSpace_length rest1
              have hv := decodeValue_length (findField key) (skipSpace rest1) d
              cases h2 : (decodeValue (findField key) (skipSpace rest1) d).2.2 with
              | some err => rfl
              | none =>
                simp only
                have hs3 := skipSpace_length (decodeValue (findField key) (skipSpace rest1) d).2.1
                cases h3 : skipSpace (decodeValue (findField key) (skipSpace rest1) d).2.1 with
                | nil => rfl
                | cons sep rest2 =>
                  rw [h3] at hs3
                  simp only [List.length_cons] at hs3
                  simp only
                  split_ifs
                  · rfl
                  · exact ih rest2 _ (by omega)
                  · rfl
            · rfl
      · rfl

/-- Every bound above the length of the text gives the loop of `decodeState.object`
the same result: the bound `json.Unmarshal` is given here, the length of the whole
input, is never used up. -/
theorem decodeObject_fuel_add (fuel extra : Nat) (data : List Char) (d : DecodeState)
    (h : data.length < fuel) : decodeObject (fuel + extra) data d = decodeObject fuel data d := by
  induction extra with
  | zero => rfl
  | succ n ih =>
    rw [← Nat.add_assoc, decodeObject_fuel (fuel + n) data d (by omega), ih]

/-- `json.Marshal` writes a token whose expiry is a whole second as a token document. -/
theorem jsonMarshal_tokenDocument (token : OAuthToken) (hv : token.ExpiresAt.Valid)
    (hn : token.ExpiresAt.nsec = 0) (hy0 : 0 ≤ token.ExpiresAt.year)
    (hy1 : token.ExpiresAt.year ≤ 9999) (ho : token.ExpiresAt.offset.natAbs < 86400) :
    jsonMarshal token = .ok (tokenDocument (escapeString token.AccessToken.data)
      (token.ExpiresAt.secondsText ++ token.ExpiresAt.zoneText)) := by
  rw [jsonMarshal_whole token hv hn hy0 hy1 ho]
  congr 1
  apply String.ext
  simp [tokenDocument]

/-- The loop of `decodeState.object` over an object whose one member is the access
token. -/
theorem decodeObject_accessToken (fuel : Nat) (lit a tail : List Char) (d : DecodeState)
    (hl : StringLiteral lit a) :
    decodeObject (fuel + 1)
        ('"' :: ("access_token".data ++ '"' :: ':' :: '"' :: (lit ++ '"' :: '}' :: tail))) d
      = ({ d with token := { d.token with AccessToken := String.mk a } }, none) := by
  have hk1 : ∀ c ∈ "access_token".data, plainChar c := by decide
  have q : isSpace '"' = false := rfl
  have q2 : isSpace ':' = false := rfl
  have q4 : isSpace '}' = false := rfl
  have u1 : unquoteBytes ('"' :: ("access_token".data ++ ['"'])) = some "access_token".data := by
    rfl
  have f1 : findField "access_token".data = some .accessToken := rfl
  rw [decodeObject]
  simp only [skipSpace_cons _ _ q, rescanString_plain _ _ hk1, u1, f1, skipSpace_cons _ _ q2,
    decodeValue_accessToken _ _ _ _ hl, skipSpace_cons _ _ q4]
  simp only [show ('"' : Char) ≠ '}' by decide, show (':' : Char) = ':' from rfl, if_true,
    if_false]

/-- The loop of `decodeState.object` over an object whose one member is the expiry. -/
theorem decodeObject_expiresAt (fuel : Nat) (ts tail : List Char) (d : DecodeState)
    (t : Time) (hp : ∀ c ∈ ts, plainChar c) (ht : parseStrictRFC3339 ts = .ok t) :
    decodeObject (fuel + 1)
        ('"' :: ("expires_at".data ++ '"' :: ':' :: '"' :: (ts ++ '"' :: '}' :: tail))) d
      = ({ d with token := { d.token with ExpiresAt := t } }, none) := by
  have hk2 : ∀ c ∈ "expires_at".data, plainChar c := by decide
  have q : isSpace '"' = false := rfl
  have q2 : isSpace ':' = false := rfl
  have q4 : isSpace '}' = false := rfl
  have u2 : unquoteBytes ('"' :: ("expires_at".data ++ ['"'])) = some "expires_at".data := by
    rfl
  have f2 : findField "expires_at".data = some .expiresAt := rfl
  rw [decodeObject]
  simp only [skipSpace_cons _ _ q, rescanString_plain _ _ hk2, u2, f2, skipSpace_cons _ _ q2,
    decodeValue_expiresAt _ _ _ _ hp ht, skipSpace_cons _ _ q4]
  simp only [show ('"' : Char) ≠ '}' by decide, show (':' : Char) = ':' from rfl, if_true,
    if_false]

/-- An object with one member, a plain key and a string, is valid JSON. -/
theorem checkValid_member (name lit a : List Char) (hk : ∀ c ∈ name, plainChar c)
    (hl : StringLiteral lit a) :
    checkValid ('{' :: '"' :: (name ++ '"' :: ':' :: '"' :: (lit ++ ['"', '}']))) = none := by
  have s1 : (Scanner.reset.apply '{').apply '"'
      = ⟨.stateInString, false, [.parseObjectKey], none⟩ := rfl
  have s2 : ((Scanner.mk .stateInString false [.parseObjectKey] none).apply '"').apply ':'
      = ⟨.stateBeginValue, false, [.parseObjectValue], none⟩ := rfl
  have s3 : (Scanner.mk .stateBeginValue false [.parseObjectValue] none).apply '"'
      = ⟨.stateInString, false, [.parseObjectValue], none⟩ := rfl
  have s5 : ((Scanner.mk .stateInString false [.parseObjectValue] none).apply '"').apply '}'
      = ⟨.stateEndTop, true, [], none⟩ := rfl
  unfold checkValid
  simp only [foldl_apply_cons, List.foldl_append, s1, scan_plain _ _ _ _ hk, s2, s3,
    scan_stringLiteral _ _ _ lit a hl, s5, List.foldl_nil]
  rfl

/-- `json.Unmarshal` on an object with the access token only: the expiry is left as it
was. -/
theorem jsonUnmarshal_accessTokenDocument (lit a : List Char) (hl : StringLiteral lit a)
    (token : OAuthToken) :
    jsonUnmarshal (accessTokenDocument lit) token
      = ({ token with AccessToken := String.mk a }, none) := by
  have hdoc : accessTokenDocument lit = String.mk ('{' :: '"' :: ("access_token".data
      ++ '"' :: ':' :: '"' :: (lit ++ ['"', '}']))) := by
    apply String.ext
    simp [accessTokenDocument]
  have hk1 : ∀ c ∈ "access_token".data, plainChar c := by decide
  rw [hdoc]
  unfold jsonUnmarshal
  simp only [checkValid_member _ lit a hk1 hl]
  have hlen : ∃ n, ('{' :: '"' :: ("access_token".data
      ++ '"' :: ':' :: '"' :: (lit ++ ['"', '}']))).length = n + 1 := ⟨_, rfl⟩
  obtain ⟨n, hn⟩ := hlen
  have q : isSpace '{' = false := rfl
  simp only [skipSpace_cons _ _ q, hn, decodeObject_accessToken n lit a [] _ hl, if_true]

/-- `json.Unmarshal` on an object with the expiry only, the text of a well-formed
timestamp whose second is below 60: the access token is left as it was. -/
theorem jsonUnmarshal_expiresAtDocument (f : Timestamp) (hw : f.WellFormed)
    (hs : f.second ≤ 59) (token : OAuthToken) :
    jsonUnmarshal (expiresAtDocument f.text) token
      = ({ token with ExpiresAt := f.time }, none) := by
  have hdoc : expiresAtDocument f.text = String.mk ('{' :: '"' :: ("expires_at".data
      ++ '"' :: ':' :: '"' :: (f.text ++ ['"', '}']))) := by
    apply String.ext
    simp [expiresAtDocument]
  have hk2 : ∀ c ∈ "expires_at".data, plainChar c := by decide
  have ht : parseStrictRFC3339 f.text = .ok f.time := by
    simp [parseStrictRFC3339, parseRFC3339_text f hw hs]
  rw [hdoc]
  unfold jsonUnmarshal
  simp only [checkValid_member _ f.text f.text hk2 (stringLiteral_plain _ (f.text_plain hw))]
  have hlen : ∃ n, ('{' :: '"' :: ("expires_at".data
      ++ '"' :: ':' :: '"' :: (f.text ++ ['"', '}']))).length = n + 1 := ⟨_, rfl⟩
  obtain ⟨n, hn⟩ := hlen
  have q : isSpace '{' = false := rfl
  simp only [skipSpace_cons _ _ q, hn, decodeObject_expiresAt n f.text [] _ f.time
    (f.text_plain hw) ht, if_true]

/-- `json.Unmarshal` on `null` and on the empty object changes nothing. -/
theorem jsonUnmarshal_empty (token : OAuthToken) :
    jsonUnmarshal "null" token = (token, none)
      ∧ jsonUnmarshal "\x7b\x7d" token = (token, none) := by
  constructor <;> rfl

/-! ## Lemmas on the keyring and on errors -/

/-- The keyring `mapKeyring` behaves as a key-value map, its state being the map. -/
theorem mapKeyring_isMap : mapKeyring.IsMap id where
  set_entries := by intro st key value; rfl
  set_result := by intro st key value; rfl
  get_entries := by
    intro st key
    simp only [mapKeyring]
    split <;> rfl
  get_present := by
    intro st key value h
    simp only [mapKeyring, id] at *
    rw [h]
  get_absent := by
    intro st key h
    simp only [mapKeyring, id] at *
    rw [h]
    exact ⟨_, rfl, rfl⟩
  delete_entries := by
    intro st key
    simp only [mapKeyring, id]
    split
    · rfl
    · rename_i h
      funext x
      by_cases hx : x = key
      · simp [hx, h]
      · simp [hx]
  delete_present := by
    intro st key value h
    simp only [mapKeyring, id] at *
    rw [h]
  delete_absent := by
    intro st key h
    simp only [mapKeyring, id] at *
    rw [h]
    exact ⟨_, rfl, rfl⟩

/-- The function `errors.Is` reports `target` exactly when some error of the chain is
`target` or has a method `Is` that reports it. -/
theorem errorsIs_iff_chain (err target : GoError) :
    errorsIs err target = true ↔ ∃ e ∈ err.chain, e = target ∨ e.Is target = true := by
  induction err with
  | ErrNotFound =>
    unfold errorsIs
    simp [GoError.chain, GoError.Is]
  | errorString text =>
    unfold errorsIs
    simp [GoError.chain, GoError.Is]
  | equivalentError text equivalent _ =>
    unfold errorsIs
    by_cases h1 : GoError.equivalentError text equivalent = target
    · simp [GoError.chain, h1]
    · by_cases h2 : (GoError.equivalentError text equivalent).Is target = true
      · simp [GoError.chain, h1, h2]
      · simp [GoError.chain, h1, h2]
  | wrapError text cause ih =>
    unfold errorsIs
    by_cases h1 : GoError.wrapError text cause = target
    · simp [GoError.chain, h1]
    · have h2 : (GoError.wrapError text cause).Is target = false := rfl
      simp [GoError.chain, h1, h2, ih]
  | joinError text first second ih1 ih2 =>
    unfold errorsIs
    by_cases h1 : GoError.joinError text first second = target
    · simp [GoError.chain, h1]
    · have h2 : (GoError.joinError text first second).Is target = false := rfl
      simp [GoError.chain, h1, h2, ih1, ih2, or_and_right, exists_or]

/-! ## Properties of `Storage.Get`, `Storage.Set` and `Storage.Delete` -/

/-- C1. When the keyring's `Get` for the key fails with the not-found condition (an
error for which `errors.Is(err, keyring.ErrNotFound)` holds), `Storage.Get` returns
the zero token, whose access token is empty and whose expiry is the zero time, and no
error. -/
theorem Storage.Get_not_found {σ : Type} (s : Storage σ) (st : σ) (key : String)
    (err : GoError) (hget : (s.storage.Get st key).2.2 = some err)
    (hnf : errorsIs err GoError.ErrNotFound = true) :
    (s.Get st key).2 = (OAuthToken.zero, none)
      ∧ OAuthToken.zero.AccessToken = "" ∧ OAuthToken.zero.ExpiresAt = Time.zero := by
  refine ⟨?_, rfl, rfl⟩
  simp [Storage.Get, hget, hnf]

/-- C1, at the test case "token not found": the mock returns `keyring.ErrNotFound`. -/
theorem Storage.Get_not_found_witness :
    ((NewStorage (MockStorage ("", some GoError.ErrNotFound) none none)).Get ()
        "user@example.org").2 = (OAuthToken.zero, none)
      ∧ OAuthToken.zero.AccessToken = "" ∧ OAuthToken.zero.ExpiresAt = Time.zero :=
  Storage.Get_not_found (NewStorage (MockStorage ("", some GoError.ErrNotFound) none none)) ()
    "user@example.org" GoError.ErrNotFound rfl rfl

/-- C2. When the keyring's `Get` for the key fails with an error that is not the
not-found condition, `Storage.Get` returns the zero token and that very error. -/
theorem Storage.Get_store_error {σ : Type} (s : Storage σ) (st : σ) (key : String)
    (err : GoError) (hget : (s.storage.Get st key).2.2 = some err)
    (hnf : errorsIs err GoError.ErrNotFound = false) :
    (s.Get st key).2 = (OAuthToken.zero, some err) := by
  simp [Storage.Get, hget, hnf]

/-- C2, at the test case "could not get token": the mock returns the error "get error". -/
theorem Storage.Get_store_error_witness :
    ((NewStorage (MockStorage ("", some (GoError.errorString "get error")) none none)).Get ()
        "user@example.org").2 = (OAuthToken.zero, some (GoError.errorString "get error")) :=
  Storage.Get_store_error
    (NewStorage (MockStorage ("", some (GoError.errorString "get error")) none none)) ()
    "user@example.org" (GoError.errorString "get error") rfl rfl

/-- C3. When the keyring returns a value that `json.Unmarshal` rejects with an error
`err`, whatever the decoder had stored in the token by then, `Storage.Get` returns the
zero token and an error that wraps `err` and whose message is "could not unmarshal
token: " followed by the message of `err`. -/
theorem Storage.Get_unmarshal_error {σ : Type} (s : Storage σ) (st : σ) (key : String)
    (err : GoError) (hget : (s.storage.Get st key).2.2 = none)
    (hjson : (jsonUnmarshal (s.storage.Get st key).2.1 OAuthToken.zero).2 = some err) :
    (s.Get st key).2.1 = OAuthToken.zero
      ∧ (∃ e, (s.Get st key).2.2 = some e
          ∧ e.Error = "could not unmarshal token: " ++ err.Error ∧ e.Unwrap = some err) := by
  simp [Storage.Get, hget, hjson, ctxdWrapError, GoError.Error, GoError.Unwrap]

/-- C3, at the test case "invalid token" (the value is the one character `{`) and at
an object whose `expires_at` is a number: there the decoder has the access token
stored when it fails, and `Storage.Get` still returns the zero token. -/
theorem Storage.Get_unmarshal_error_witness :
    (((NewStorage (MockStorage ("\x7b", none) none none)).Get () "user@example.org").2.1
        = OAuthToken.zero
      ∧ ∃ e, ((NewStorage (MockStorage ("\x7b", none) none none)).Get ()
            "user@example.org").2.2 = some e
          ∧ e.Error = "could not unmarshal token: "
              ++ (GoError.errorString "unexpected end of JSON input").Error
          ∧ e.Unwrap = some (GoError.errorString "unexpected end of JSON input"))
    ∧ (jsonUnmarshal "\x7b\"access_token\":\"a\",\"expires_at\":5\x7d" OAuthToken.zero).1.AccessToken
        = "a"
    ∧ (((NewStorage (MockStorage ("\x7b\"access_token\":\"a\",\"expires_at\":5\x7d", none)
          none none)).Get () "user@example.org").2.1 = OAuthToken.zero
      ∧ ∃ e, ((NewStorage (MockStorage ("\x7b\"access_token\":\"a\",\"expires_at\":5\x7d", none)
            none none)).Get () "user@example.org").2.2 = some e
          ∧ e.Error = "could not unmarshal token: "
              ++ (GoError.errorString "Time.UnmarshalJSON: input is not a JSON string").Error
          ∧ e.Unwrap
              = some (GoError.errorString "Time.UnmarshalJSON: input is not a JSON string")) :=
  ⟨Storage.Get_unmarshal_error (NewStorage (MockStorage ("\x7b", none) none none)) ()
      "user@example.org" (GoError.errorString "unexpected end of JSON input") rfl rfl,
    rfl,
    Storage.Get_unmarshal_error
      (NewStorage (MockStorage ("\x7b\"access_token\":\"a\",\"expires_at\":5\x7d", none) none none))
      () "user@example.org"
      (GoError.errorString "Time.UnmarshalJSON: input is not a JSON string") rfl rfl⟩

/-- C6. `Storage.Delete` returns no error exactly when the keyring's `Delete` returned
no error or an error that is the not-found condition; any other error of the keyring's
`Delete` is returned as it is. -/
theorem Storage.Delete_result {σ : Type} (s : Storage σ) (st : σ) (key : String) :
    ((s.Delete st key).2 = none ↔
        ((s.storage.Delete st key).2 = none
          ∨ ∃ err, (s.storage.Delete st key).2 = some err
              ∧ errorsIs err GoError.ErrNotFound = true))
      ∧ (∀ err, (s.storage.Delete st key).2 = some err
          → errorsIs err GoError.ErrNotFound = false → (s.Delete st key).2 = some err) := by
  cases h : (s.storage.Delete st key).2 with
  | none => simp [Storage.Delete, h]
  | some err =>
    cases hnf : errorsIs err GoError.ErrNotFound <;> simp [Storage.Delete, h, hnf]

/-- C7. The token storage keeps no cache.  After any calls of `Get`, `Set` and `Delete`
on one storage, a call of `Storage.Get` makes exactly one call on the keyring, a `Get`
for that key, and leaves the keyring as that call left it; its result is fixed by what
the keyring returns on that call: the zero token and no error for the not-found
condition, the zero token and the error for any other error, the token that
`json.Unmarshal` decodes from the value returned, or the zero token and the decoder's
error, wrapped.  So over a keyring that behaves as a map, after any calls that end
with a `Get` for the key, once the stored value is replaced by the document
`{"access_token":"A","expires_at":"T"}` the next `Get` returns the token of that
document, the new value. -/
theorem Storage.Get_no_cache :
    (∀ (σ : Type) (k : KeyringStorage σ) (st : σ) (log : List KeyringCall)
        (ops : List StorageOp) (key : String),
        ((NewStorage k.logged).Get ((NewStorage k.logged).run (st, log) ops) key).1
            = ((k.Get ((NewStorage k.logged).run (st, log) ops).1 key).1,
                ((NewStorage k.logged).run (st, log) ops).2 ++ [KeyringCall.get key])
          ∧ (∀ err, (k.Get ((NewStorage k.logged).run (st, log) ops).1 key).2.2 = some err →
              errorsIs err GoError.ErrNotFound = true →
              ((NewStorage k.logged).Get ((NewStorage k.logged).run (st, log) ops) key).2
                = (OAuthToken.zero, none))
          ∧ (∀ err, (k.Get ((NewStorage k.logged).run (st, log) ops).1 key).2.2 = some err →
              errorsIs err GoError.ErrNotFound = false →
              ((NewStorage k.logged).Get ((NewStorage k.logged).run (st, log) ops) key).2
                = (OAuthToken.zero, some err))
          ∧ (∀ token, (k.Get ((NewStorage k.logged).run (st, log) ops).1 key).2.2 = none →
              jsonUnmarshal (k.Get ((NewStorage k.logged).run (st, log) ops).1 key).2.1
                OAuthToken.zero = (token, none) →
              ((NewStorage k.logged).Get ((NewStorage k.logged).run (st, log) ops) key).2
                = (token, none))
          ∧ (∀ token err, (k.Get ((NewStorage k.logged).run (st, log) ops).1 key).2.2 = none →
              jsonUnmarshal (k.Get ((NewStorage k.logged).run (st, log) ops).1 key).2.1
                OAuthToken.zero = (token, some err) →
              ((NewStorage k.logged).Get ((NewStorage k.logged).run (st, log) ops) key).2
                = (OAuthToken.zero, some (ctxdWrapError err "could not unmarshal token"))))
      ∧ (∀ (st : String → Option String) (ops : List StorageOp) (key : String)
          (lit a : List Char) (f : Timestamp),
          StringLiteral lit a → f.WellFormed → f.second ≤ 59 →
          ((NewStorage mapKeyring).Get
              (mapKeyring.Set ((NewStorage mapKeyring).run st (ops ++ [StorageOp.get key])) key
                (tokenDocument lit f.text)).1 key).2
            = ({ AccessToken := String.mk a, ExpiresAt := f.time }, none)) := by
  constructor
  · intro σ k st log ops key
    generalize (NewStorage k.logged).run (st, log) ops = st1
    refine ⟨?_, ?_, ?_, ?_, ?_⟩
    · simp only [Storage.Get, NewStorage, KeyringStorage.logged]
      split
      · split <;> rfl
      · split <;> rfl
    · intro err h hnf
      simp [Storage.Get, NewStorage, KeyringStorage.logged, h, hnf]
    · intro err h hnf
      simp [Storage.Get, NewStorage, KeyringStorage.logged, h, hnf]
    · intro token h hu
      simp [Storage.Get, NewStorage, KeyringStorage.logged, h, hu]
    · intro token err h hu
      simp [Storage.Get, NewStorage, KeyringStorage.logged, h, hu]
  · intro st ops key lit a f hl hw hs
    generalize (NewStorage mapKeyring).run st (ops ++ [StorageOp.get key]) = st1
    have hg : (mapKeyring.Get (mapKeyring.Set st1 key (tokenDocument lit f.text)).1 key).2
        = (tokenDocument lit f.text, none) := by
      simp [mapKeyring]
    simp only [Storage.Get, NewStorage, hg, jsonUnmarshal_tokenDocument lit a f hl hw hs]

/-- C7, at a storage over the map keyring: after the token of the tests is set and
read, and another token is set, the next `Get` is the fourth call on the keyring, and
once the stored value is replaced by the document of the other token the next `Get`
returns the other token, not the one read before. -/
theorem Storage.Get_no_cache_witness :
    ((NewStorage mapKeyring.logged).Get
        ((NewStorage mapKeyring.logged).run (fun _ => none, [])
          [StorageOp.set "user@example.org" expectedToken, StorageOp.get "user@example.org",
            StorageOp.set "user@example.org" otherToken]) "user@example.org").1.2
        = [KeyringCall.set "user@example.org"
            "\x7b\"access_token\":\"access\",\"expires_at\":\"2020-01-02T03:04:05Z\"\x7d",
          KeyringCall.get "user@example.org",
          KeyringCall.set "user@example.org"
            "\x7b\"access_token\":\"other\",\"expires_at\":\"2021-06-07T08:09:10Z\"\x7d",
          KeyringCall.get "user@example.org"]
      ∧ ((NewStorage mapKeyring).Get
          ((NewStorage mapKeyring).run (fun _ => none)
            [StorageOp.set "user@example.org" expectedToken, StorageOp.get "user@example.org"])
          "user@example.org").2 = (expectedToken, none)
      ∧ tokenDocument "other".data otherTimestamp.text
          = "\x7b\"access_token\":\"other\",\"expires_at\":\"2021-06-07T08:09:10Z\"\x7d"
      ∧ ((NewStorage mapKeyring).Get
          (mapKeyring.Set
            ((NewStorage mapKeyring).run (fun _ => none)
              ([StorageOp.set "user@example.org" expectedToken]
                ++ [StorageOp.get "user@example.org"]))
            "user@example.org" (tokenDocument "other".data otherTimestamp.text)).1
          "user@example.org").2 = (otherToken, none) := by
  refine ⟨?_, rfl, by decide, ?_⟩
  · have h := ((Storage.Get_no_cache).1 _ mapKeyring (fun _ => none) []
      [StorageOp.set "user@example.org" expectedToken, StorageOp.get "user@example.org",
        StorageOp.set "user@example.org" otherToken] "user@example.org").1
    rw [h]
    rfl
  · exact (Storage.Get_no_cache).2 (fun _ => none)
      [StorageOp.set "user@example.org" expectedToken] "user@example.org" "other".data
      "other".data otherTimestamp (stringLiteral_plain _ (by decide)) (by decide) (by decide)

/-- C9. For a token that `json.Marshal` serializes, `Storage.Set` returns exactly what
the keyring's `Set` returned for the key and the serialized text: its next state and
its error, or none, unchanged. -/
theorem Storage.Set_result {σ : Type} (s : Storage σ) (st : σ) (key : String)
    (token : OAuthToken) (data : String) (hjson : jsonMarshal token = .ok data) :
    s.Set st key token = s.storage.Set st key data := by
  simp [Storage.Set, hjson]

/-- C5. For a token whose expiry is a whole second in UTC with a year in 0..9999,
`Storage.Set` makes exactly one call on the keyring: `Set`, with the key unchanged and
with the value `{"access_token":"A","expires_at":"T"}`, where `A` is the access token
with its JSON escapes and `T` the expiry as `YYYY-MM-DDTHH:MM:SSZ`; the keyring's
result is returned.  The escaped access token `A` is, between its quotes, a JSON string
that spells the access token. -/
theorem Storage.Set_writes {σ : Type} (k : KeyringStorage σ) (st : σ) (log : List KeyringCall)
    (key : String) (token : OAuthToken) (hv : token.ExpiresAt.Valid)
    (hn : token.ExpiresAt.nsec = 0) (hutc : token.ExpiresAt.offset = 0)
    (hy0 : 0 ≤ token.ExpiresAt.year) (hy1 : token.ExpiresAt.year ≤ 9999) :
    (NewStorage k.logged).Set (st, log) key token
        = (((k.Set st key (String.mk ("\x7b\"access_token\":\"".data
              ++ escapeString token.AccessToken.data ++ "\",\"expires_at\":\"".data
              ++ token.ExpiresAt.secondsText ++ "Z\"\x7d".data))).1,
            log ++ [KeyringCall.set key (String.mk ("\x7b\"access_token\":\"".data
              ++ escapeString token.AccessToken.data ++ "\",\"expires_at\":\"".data
              ++ token.ExpiresAt.secondsText ++ "Z\"\x7d".data))]),
          (k.Set st key (String.mk ("\x7b\"access_token\":\"".data
              ++ escapeString token.AccessToken.data ++ "\",\"expires_at\":\"".data
              ++ token.ExpiresAt.secondsText ++ "Z\"\x7d".data))).2)
      ∧ StringLiteral (escapeString token.AccessToken.data) token.AccessToken.data := by
  have hm := jsonMarshal_whole token hv hn hy0 hy1 (by rw [hutc]; decide)
  have hz : token.ExpiresAt.zoneText = ['Z'] := by simp [Time.zoneText, hutc]
  rw [hz] at hm
  constructor
  · simp only [Storage.Set, hm, NewStorage, KeyringStorage.logged]
    simp
  · exact stringLiteral_escapeString _

/-- C5, at the token of the test `TestTokenStorage_SetAndDeleteKeyring`: the value
written is the `expectedData` of the test. -/
theorem Storage.Set_writes_witness :
    ((NewStorage mapKeyring.logged).Set (fun _ => none, []) "user@example.org" expectedToken).1.2
        = [KeyringCall.set "user@example.org"
            "\x7b\"access_token\":\"access\",\"expires_at\":\"2020-01-02T03:04:05Z\"\x7d"]
      ∧ ((NewStorage mapKeyring.logged).Set (fun _ => none, []) "user@example.org"
          expectedToken).2 = none := by
  have h := (Storage.Set_writes mapKeyring (fun _ => none) [] "user@example.org" expectedToken
    (by decide) rfl rfl (by decide) (by decide)).1
  rw [h]
  exact ⟨by decide, rfl⟩

/-- C9, at a keyring whose `Set` fails with "set error" and at one whose `Set`
succeeds. -/
theorem Storage.Set_result_witness :
    (NewStorage (MockStorage ("", none) (some (GoError.errorString "set error")) none)).Set ()
        "user@example.org" expectedToken = ((), some (GoError.errorString "set error"))
      ∧ (NewStorage (MockStorage ("", none) none none)).Set () "user@example.org" expectedToken
        = ((), none) :=
  ⟨Storage.Set_result _ () "user@example.org" expectedToken
      "\x7b\"access_token\":\"access\",\"expires_at\":\"2020-01-02T03:04:05Z\"\x7d" rfl,
    Storage.Set_result _ () "user@example.org" expectedToken
      "\x7b\"access_token\":\"access\",\"expires_at\":\"2020-01-02T03:04:05Z\"\x7d" rfl⟩

/-- C10 as stated fails: for the expiry 2020-01-02T03:04:05.123Z the value written
holds the fraction `.123`; it is not the value with the second-precision text. -/
theorem Storage.Set_fraction_counterexample :
    ((NewStorage mapKeyring.logged).Set (fun _ => none, []) "user@example.org"
        { expectedToken with ExpiresAt := { expectedToken.ExpiresAt with nsec := 123000000 } }).1.2
        = [KeyringCall.set "user@example.org"
            "\x7b\"access_token\":\"access\",\"expires_at\":\"2020-01-02T03:04:05.123Z\"\x7d"]
      ∧ ((NewStorage mapKeyring.logged).Set (fun _ => none, []) "user@example.org"
        { expectedToken with ExpiresAt := { expectedToken.ExpiresAt with nsec := 123000000 } }).1.2
        ≠ [KeyringCall.set "user@example.org"
            "\x7b\"access_token\":\"access\",\"expires_at\":\"2020-01-02T03:04:05Z\"\x7d"] := by
  constructor
  · rfl
  · decide

/-- C10, amended. For a token whose expiry has no sub-second part (with a year in
0..9999 and a zone offset below a day), the `expires_at` value that `Storage.Set`
writes has second precision: it is `YYYY-MM-DDTHH:MM:SS` followed by the zone, and no
period occurs in it. -/
theorem Storage.Set_whole_second {σ : Type} (k : KeyringStorage σ) (st : σ)
    (log : List KeyringCall) (key : String) (token : OAuthToken) (hv : token.ExpiresAt.Valid)
    (hn : token.ExpiresAt.nsec = 0) (hy0 : 0 ≤ token.ExpiresAt.year)
    (hy1 : token.ExpiresAt.year ≤ 9999) (ho : token.ExpiresAt.offset.natAbs < 86400) :
    ((NewStorage k.logged).Set (st, log) key token).1.2
        = log ++ [KeyringCall.set key (String.mk ("\x7b\"access_token\":\"".data
            ++ escapeString token.AccessToken.data ++ "\",\"expires_at\":\"".data
            ++ (token.ExpiresAt.secondsText ++ token.ExpiresAt.zoneText) ++ "\"\x7d".data))]
      ∧ '.' ∉ token.ExpiresAt.secondsText ++ token.ExpiresAt.zoneText := by
  have hm := jsonMarshal_whole token hv hn hy0 hy1 ho
  constructor
  · simp only [Storage.Set, hm, NewStorage, KeyringStorage.logged]
    simp
  · obtain ⟨hm1, hm2, hd1, hd2, hh, hmi, hs, -⟩ := hv
    have hd3 : token.ExpiresAt.day < 100 := by
      have : daysIn token.ExpiresAt.month token.ExpiresAt.year ≤ 31 := daysIn_le _ _ hm1 hm2
      omega
    have hy : token.ExpiresAt.year.toNat < 10000 := by omega
    have p1 := period_not_mem_fourDigits _ hy
    have p2 := period_not_mem_twoDigits token.ExpiresAt.month (by omega)
    have p3 := period_not_mem_twoDigits token.ExpiresAt.day hd3
    have p4 := period_not_mem_twoDigits token.ExpiresAt.hour (by omega)
    have p5 := period_not_mem_twoDigits token.ExpiresAt.minute (by omega)
    have p6 := period_not_mem_twoDigits token.ExpiresAt.second (by omega)
    have p7 := period_not_mem_twoDigits (token.ExpiresAt.offset.natAbs / 3600) (by omega)
    have p8 := period_not_mem_twoDigits (token.ExpiresAt.offset.natAbs / 60 % 60) (by omega)
    simp only [Time.secondsText, Time.zoneText]
    split_ifs <;> simp [p1, p2, p3, p4, p5, p6, p7, p8]

/-- C10 amended, at the token of the tests. -/
theorem Storage.Set_whole_second_witness :
    ((NewStorage mapKeyring.logged).Set (fun _ => none, []) "user@example.org" expectedToken).1.2
        = [KeyringCall.set "user@example.org"
            "\x7b\"access_token\":\"access\",\"expires_at\":\"2020-01-02T03:04:05Z\"\x7d"]
      ∧ '.' ∉ expectedToken.ExpiresAt.secondsText ++ expectedToken.ExpiresAt.zoneText := by
  have h := Storage.Set_whole_second mapKeyring (fun _ => none) [] "user@example.org"
    expectedToken (by decide) rfl (by decide) (by decide) (by decide)
  exact ⟨h.1.trans (by decide), h.2⟩

/-- C4 as stated fails: the token of the tests with its expiry read 30 seconds east of
UTC has a valid whole-second expiry in the year 2020; `Storage.Set` succeeds and writes
the zone as `+00:00`, the seconds of the offset dropped, and `Storage.Get` reads the
same clock time at offset zero, which is another instant. -/
theorem Storage.Set_Get_offset_counterexample :
    (∀ (st : String → Option String) (key value : String),
        (mapKeyring.Get (mapKeyring.Set st key value).1 key).2 = (value, none))
      ∧ offsetToken.ExpiresAt.Valid ∧ offsetToken.ExpiresAt.nsec = 0
      ∧ 0 ≤ offsetToken.ExpiresAt.year ∧ offsetToken.ExpiresAt.year ≤ 9999
      ∧ ((NewStorage mapKeyring).Set (fun _ => none) "user@example.org" offsetToken).2 = none
      ∧ ((NewStorage mapKeyring).Get
            ((NewStorage mapKeyring).Set (fun _ => none) "user@example.org" offsetToken).1
            "user@example.org").2
          = ({ offsetToken with ExpiresAt := { offsetToken.ExpiresAt with offset := 0 } }, none)
      ∧ ({ offsetToken.ExpiresAt with offset := 0 } : Time).instant
          ≠ offsetToken.ExpiresAt.instant := by
  refine ⟨?_, by decide, rfl, by decide, by decide, rfl, ?_, by decide⟩
  · intro st key value; simp [mapKeyring]
  · rfl

/-- C4, amended. Over a keyring whose `Get` returns the value last `Set` for a key, for
every key and every token whose expiry is a whole second with a year in 0..9999 in a
zone whose offset is a whole number of minutes below 24 hours, `Storage.Set` followed
by `Storage.Get` returns no error and a token with the same access token and the same
expiry: the same reading and offset, hence the same instant. -/
theorem Storage.Set_Get_round_trip {σ : Type} (k : KeyringStorage σ)
    (hlaw : ∀ st key value, (k.Get (k.Set st key value).1 key).2 = (value, none))
    (st : σ) (key : String) (token : OAuthToken) (hv : token.ExpiresAt.Valid)
    (hn : token.ExpiresAt.nsec = 0) (hy0 : 0 ≤ token.ExpiresAt.year)
    (hy1 : token.ExpiresAt.year ≤ 9999) (ho : token.ExpiresAt.offset % 60 = 0)
    (ho1 : token.ExpiresAt.offset.natAbs < 86400) :
    ((NewStorage k).Get ((NewStorage k).Set st key token).1 key).2.2 = none
      ∧ ((NewStorage k).Get ((NewStorage k).Set st key token).1 key).2.1.AccessToken
          = token.AccessToken
      ∧ ((NewStorage k).Get ((NewStorage k).Set st key token).1 key).2.1.ExpiresAt
          = token.ExpiresAt
      ∧ ((NewStorage k).Get ((NewStorage k).Set st key token).1 key).2.1.ExpiresAt.instant
          = token.ExpiresAt.instant := by
  have hm := jsonMarshal_tokenDocument token hv hn hy0 hy1 ho1
  rw [← Time.timestamp_text _ ho] at hm
  have hu := jsonUnmarshal_tokenDocument (escapeString token.AccessToken.data)
    token.AccessToken.data token.ExpiresAt.timestamp (stringLiteral_escapeString _)
    (Time.timestamp_wellFormed _ hv hy0 hy1 ho1)
    (by obtain ⟨-, -, -, -, -, -, hs, -⟩ := hv; simp only [Time.timestamp]; omega)
    OAuthToken.zero
  rw [Time.timestamp_time _ hn hy0 ho] at hu
  have hg : ((NewStorage k).Get ((NewStorage k).Set st key token).1 key).2 = (token, none) := by
    simp only [Storage.Get, Storage.Set, NewStorage, hm, hlaw, hu]
  rw [hg]
  exact ⟨rfl, rfl, rfl, rfl⟩

/-- C4 amended, at the token of the tests over the map keyring. -/
theorem Storage.Set_Get_round_trip_witness :
    ((NewStorage mapKeyring).Get
        ((NewStorage mapKeyring).Set (fun _ => none) "user@example.org" expectedToken).1
        "user@example.org").2.2 = none
      ∧ ((NewStorage mapKeyring).Get
        ((NewStorage mapKeyring).Set (fun _ => none) "user@example.org" expectedToken).1
        "user@example.org").2.1.AccessToken = "access"
      ∧ ((NewStorage mapKeyring).Get
        ((NewStorage mapKeyring).Set (fun _ => none) "user@example.org" expectedToken).1
        "user@example.org").2.1.ExpiresAt = expectedToken.ExpiresAt
      ∧ ((NewStorage mapKeyring).Get
        ((NewStorage mapKeyring).Set (fun _ => none) "user@example.org" expectedToken).1
        "user@example.org").2.1.ExpiresAt.instant = expectedToken.ExpiresAt.instant :=
  Storage.Set_Get_round_trip mapKeyring (by intro st key value; simp [mapKeyring])
    (fun _ => none) "user@example.org" expectedToken (by decide) rfl (by decide) (by decide)
    (by decide) (by decide)

/-- C8 as stated fails: `1990-12-31T23:59:60Z` is a well-formed RFC 3339 timestamp (a
leap second), and for the document with it `Storage.Get` returns the zero token and
the parser's error "second out of range", wrapped. -/
theorem Storage.Get_leap_second_counterexample :
    leapSecond.WellFormed ∧ String.mk leapSecond.text = "1990-12-31T23:59:60Z"
      ∧ StringLiteral "access".data "access".data
      ∧ tokenDocument "access".data leapSecond.text
          = "\x7b\"access_token\":\"access\",\"expires_at\":\"1990-12-31T23:59:60Z\"\x7d"
      ∧ ((NewStorage (MockStorage (tokenDocument "access".data leapSecond.text, none) none
            none)).Get () "user@example.org").2
          = (OAuthToken.zero, some (ctxdWrapError
              (GoError.errorString "parsing time \"1990-12-31T23:59:60Z\": second out of range")
              "could not unmarshal token")) := by
  refine ⟨by decide, by decide, stringLiteral_plain _ (by decide), by decide, ?_⟩
  rfl

/-- C8, amended. When the keyring returns `{"access_token":"A","expires_at":"T"}` for
the key, `A` a JSON string that spells an access token `a` and `T` a well-formed RFC
3339 timestamp (capital `T` and `Z`), with or without a fraction of a second, whose
seconds field is at most 59, `Storage.Get` returns no error and the token whose access
token is `a` and whose expiry is the time `T` denotes, a fraction of more than nine
digits cut to whole nanoseconds. -/
theorem Storage.Get_token_document {σ : Type} (s : Storage σ) (st : σ) (key : String)
    (lit a : List Char) (f : Timestamp) (hl : StringLiteral lit a) (hw : f.WellFormed)
    (hs : f.second ≤ 59)
    (hget : (s.storage.Get st key).2 = (tokenDocument lit f.text, none)) :
    (s.Get st key).2 = ({ AccessToken := String.mk a, ExpiresAt := f.time }, none) := by
  simp only [Storage.Get, hget, jsonUnmarshal_tokenDocument lit a f hl hw hs]

/-- C8 amended, at the test case "success": the document with the timestamp
`2020-01-02T03:04:05.000Z` gives the token of the tests. -/
theorem Storage.Get_token_document_witness :
    tokenDocument "access".data testTimestamp.text
        = "\x7b\"access_token\":\"access\",\"expires_at\":\"2020-01-02T03:04:05.000Z\"\x7d"
      ∧ ((NewStorage (MockStorage (tokenDocument "access".data testTimestamp.text, none) none
          none)).Get () "user@example.org").2 = (expectedToken, none) :=
  ⟨by decide,
    Storage.Get_token_document _ () "user@example.org" "access".data "access".data
      testTimestamp (stringLiteral_plain _ (by decide)) (by decide) (by decide) rfl⟩

/-- C11. Over a keyring that behaves as a key-value map, for every key and every token
that `json.Marshal` serializes: `Storage.Set` succeeds and leaves the serialized token
under the key; `Storage.Delete` then succeeds and leaves no entry under the key; a
following `Storage.Get` returns the zero token and no error; and a second
`Storage.Delete`, made straight away or after that `Get`, returns no error. -/
theorem Storage.Set_Delete_Get {σ : Type} (k : KeyringStorage σ)
    (entries : σ → String → Option String) (hk : k.IsMap entries) (st : σ) (key : String)
    (token : OAuthToken) (data : String) (hjson : jsonMarshal token = .ok data) :
    ((NewStorage k).Set st key token).2 = none
      ∧ entries ((NewStorage k).Set st key token).1 key = some data
      ∧ ((NewStorage k).Delete ((NewStorage k).Set st key token).1 key).2 = none
      ∧ entries ((NewStorage k).Delete ((NewStorage k).Set st key token).1 key).1 key = none
      ∧ ((NewStorage k).Get
            ((NewStorage k).Delete ((NewStorage k).Set st key token).1 key).1 key).2
          = (OAuthToken.zero, none)
      ∧ ((NewStorage k).Delete
            ((NewStorage k).Delete ((NewStorage k).Set st key token).1 key).1 key).2 = none
      ∧ ((NewStorage k).Delete
            ((NewStorage k).Get
              ((NewStorage k).Delete ((NewStorage k).Set st key token).1 key).1 key).1 key).2
          = none := by
  have hset : (NewStorage k).Set st key token = k.Set st key data := by
    simp [Storage.Set, NewStorage, hjson]
  have h1 : entries (k.Set st key data).1 key = some data := by
    rw [hk.set_entries]; simp
  have hdel : ∀ st1, ((NewStorage k).Delete st1 key).1 = (k.Delete st1 key).1 := by
    intro st1
    simp only [Storage.Delete, NewStorage]
    split
    · split <;> rfl
    · rfl
  have hdel0 : ∀ st1, entries st1 key = none → ((NewStorage k).Delete st1 key).2 = none := by
    intro st1 h
    obtain ⟨err, he, hnf⟩ := hk.delete_absent st1 key h
    simp [Storage.Delete, NewStorage, he, hnf]
  have h2 : entries (k.Delete (k.Set st key data).1 key).1 key = none := by
    rw [hk.delete_entries]; simp
  have hget : ∀ st1, entries st1 key = none →
      ((NewStorage k).Get st1 key).2 = (OAuthToken.zero, none)
        ∧ ((NewStorage k).Get st1 key).1 = (k.Get st1 key).1 := by
    intro st1 h
    obtain ⟨err, he, hnf⟩ := hk.get_absent st1 key h
    simp [Storage.Get, NewStorage, he, hnf]
  rw [hset, hdel]
  refine ⟨hk.set_result _ _ _, h1, ?_, h2, (hget _ h2).1, hdel0 _ h2, ?_⟩
  · simp [Storage.Delete, NewStorage, hk.delete_present _ _ _ h1]
  · apply hdel0
    rw [(hget _ h2).2, hk.get_entries]
    exact h2

/-- C11, at the steps of the test `TestTokenStorage_DeleteKeyring`: over the map
keyring with no entries, the token of the tests is set and deleted, and the entry is
gone. -/
theorem Storage.Set_Delete_Get_witness :
    ((NewStorage mapKeyring).Set (fun _ => none) "user@example.org" expectedToken).2 = none
      ∧ ((NewStorage mapKeyring).Set (fun _ => none) "user@example.org" expectedToken).1
          "user@example.org"
          = some "\x7b\"access_token\":\"access\",\"expires_at\":\"2020-01-02T03:04:05Z\"\x7d"
      ∧ ((NewStorage mapKeyring).Delete
          ((NewStorage mapKeyring).Set (fun _ => none) "user@example.org" expectedToken).1
          "user@example.org").2 = none
      ∧ ((NewStorage mapKeyring).Delete
          ((NewStorage mapKeyring).Set (fun _ => none) "user@example.org" expectedToken).1
          "user@example.org").1 "user@example.org" = none
      ∧ ((NewStorage mapKeyring).Get
          ((NewStorage mapKeyring).Delete
            ((NewStorage mapKeyring).Set (fun _ => none) "user@example.org" expectedToken).1
            "user@example.org").1 "user@example.org").2 = (OAuthToken.zero, none)
      ∧ ((NewStorage mapKeyring).Delete
          ((NewStorage mapKeyring).Delete
            ((NewStorage mapKeyring).Set (fun _ => none) "user@example.org" expectedToken).1
            "user@example.org").1 "user@example.org").2 = none
      ∧ ((NewStorage mapKeyring).Delete
          ((NewStorage mapKeyring).Get
            ((NewStorage mapKeyring).Delete
              ((NewStorage mapKeyring).Set (fun _ => none) "user@example.org" expectedToken).1
              "user@example.org").1 "user@example.org").1 "user@example.org").2 = none :=
  Storage.Set_Delete_Get mapKeyring id mapKeyring_isMap (fun _ => none) "user@example.org"
    expectedToken "\x7b\"access_token\":\"access\",\"expires_at\":\"2020-01-02T03:04:05Z\"\x7d"
    rfl

/-- C12. For a token that `json.Marshal` refuses with an error `err`, `Storage.Set`
returns an error that wraps `err` and whose message is "could not marshal token: "
followed by the message of `err`, and it makes no call on the keyring: the keyring's
state and the log of its calls are what they were.  A token whose expiry has a year
outside 0..9999 is refused by `json.Marshal`. -/
theorem Storage.Set_marshal_error {σ : Type} (k : KeyringStorage σ) (st : σ)
    (log : List KeyringCall) (key : String) (token : OAuthToken) :
    (∀ err, jsonMarshal token = .error err →
        (NewStorage k.logged).Set (st, log) key token
            = ((st, log), some (ctxdWrapError err "could not marshal token"))
          ∧ (ctxdWrapError err "could not marshal token").Error
              = "could not marshal token: " ++ err.Error
          ∧ (ctxdWrapError err "could not marshal token").Unwrap = some err)
      ∧ (token.ExpiresAt.year < 0 ∨ 9999 < token.ExpiresAt.year →
          jsonMarshal token = .error yearError) := by
  refine ⟨?_, jsonMarshal_year token⟩
  intro err hjson
  refine ⟨?_, rfl, rfl⟩
  simp [Storage.Set, hjson]

/-- C12, at the token of the tests with its expiry moved to the year 10000, over the
map keyring with an entry under the key: the error names the year, the entry is the
one that was there and the keyring has seen no call. -/
theorem Storage.Set_marshal_error_witness :
    jsonMarshal lateToken = .error yearError
      ∧ (NewStorage mapKeyring.logged).Set
          (fun x => if x = "user@example.org" then some "old" else none, [])
          "user@example.org" lateToken
        = ((fun x => if x = "user@example.org" then some "old" else none, []),
            some (ctxdWrapError yearError "could not marshal token"))
      ∧ (ctxdWrapError yearError "could not marshal token").Error
          = "could not marshal token: json: error calling MarshalJSON for type time.Time: Time.MarshalJSON: year outside of range [0,9999]"
      ∧ (ctxdWrapError yearError "could not marshal token").Unwrap = some yearError :=
  ⟨rfl,
    ((Storage.Set_marshal_error mapKeyring
      (fun x => if x = "user@example.org" then some "old" else none) [] "user@example.org"
      lateToken).1 yearError rfl).1,
    by decide, rfl⟩

/-- C13. When the keyring returns a value that is valid JSON and holds no token data,
the literal `null` or the empty object `{}`, `Storage.Get` returns the zero token and
no error, which is what it returns when the key is not found.  When the value is an
object with one of the two fields only, the other field is left at its zero value:
`{"access_token":"A"}`, `A` a JSON string that spells `a`, gives the access token `a`
and the zero time; `{"expires_at":"T"}`, `T` a well-formed RFC 3339 timestamp with a
second up to 59, gives the empty access token and the time `T` denotes. -/
theorem Storage.Get_no_token_data {σ : Type} (s : Storage σ) (st : σ) (key value : String)
    (hget : (s.storage.Get st key).2 = (value, none)) :
    ((value = "null" ∨ value = "\x7b\x7d") →
        (s.Get st key).2 = (OAuthToken.zero, none)
          ∧ (s.Get st key).2
            = ((NewStorage (MockStorage ("", some GoError.ErrNotFound) none none)).Get () key).2)
      ∧ (∀ lit a, StringLiteral lit a → value = accessTokenDocument lit →
          (s.Get st key).2 = ({ AccessToken := String.mk a, ExpiresAt := Time.zero }, none))
      ∧ (∀ f : Timestamp, f.WellFormed → f.second ≤ 59 → value = expiresAtDocument f.text →
          (s.Get st key).2 = ({ AccessToken := "", ExpiresAt := f.time }, none)) := by
  refine ⟨?_, ?_, ?_⟩
  · intro h
    have hu : jsonUnmarshal value OAuthToken.zero = (OAuthToken.zero, none) := by
      rcases h with rfl | rfl
      · exact (jsonUnmarshal_empty _).1
      · exact (jsonUnmarshal_empty _).2
    have hg : (s.Get st key).2 = (OAuthToken.zero, none) := by
      simp only [Storage.Get, hget, hu]
    exact ⟨hg, hg.trans rfl⟩
  · intro lit a hl hv
    subst hv
    simp only [Storage.Get, hget, jsonUnmarshal_accessTokenDocument lit a hl]
    rfl
  · intro f hw hs hv
    subst hv
    simp only [Storage.Get, hget, jsonUnmarshal_expiresAtDocument f hw hs]
    rfl

/-- C13, at the values `null`, `{}`, `{"access_token":"access"}` and
`{"expires_at":"2020-01-02T03:04:05.000Z"}`. -/
theorem Storage.Get_no_token_data_witness :
    ((NewStorage (MockStorage ("null", none) none none)).Get () "user@example.org").2
        = (OAuthToken.zero, none)
      ∧ ((NewStorage (MockStorage ("\x7b\x7d", none) none none)).Get () "user@example.org").2
        = (OAuthToken.zero, none)
      ∧ accessTokenDocument "access".data = "\x7b\"access_token\":\"access\"\x7d"
      ∧ ((NewStorage (MockStorage (accessTokenDocument "access".data, none) none none)).Get ()
          "user@example.org").2
        = ({ AccessToken := "access", ExpiresAt := Time.zero }, none)
      ∧ expiresAtDocument testTimestamp.text = "\x7b\"expires_at\":\"2020-01-02T03:04:05.000Z\"\x7d"
      ∧ ((NewStorage (MockStorage (expiresAtDocument testTimestamp.text, none) none none)).Get ()
          "user@example.org").2
        = ({ AccessToken := "", ExpiresAt := expectedToken.ExpiresAt }, none) :=
  ⟨((Storage.Get_no_token_data _ () "user@example.org" "null" rfl).1 (Or.inl rfl)).1,
    ((Storage.Get_no_token_data _ () "user@example.org" "\x7b\x7d" rfl).1 (Or.inr rfl)).1,
    by decide,
    (Storage.Get_no_token_data _ () "user@example.org" (accessTokenDocument "access".data)
      rfl).2.1 "access".data "access".data (stringLiteral_plain _ (by decide)) rfl,
    by decide,
    (Storage.Get_no_token_data _ () "user@example.org" (expiresAtDocument testTimestamp.text)
      rfl).2.2 testTimestamp (by decide) (by decide) rfl⟩

/-- C14 as stated fails in its second half: the error `declaredNotFound` is not
`keyring.ErrNotFound` and wraps nothing, so its chain is the error alone and does not
contain `keyring.ErrNotFound`; its method `Is` reports `keyring.ErrNotFound`, so
`errors.Is` holds, and `Storage.Get` given it returns the zero token and no error and
`Storage.Delete` given it returns no error. -/
theorem Storage.not_found_chain_counterexample :
    declaredNotFound ≠ GoError.ErrNotFound
      ∧ declaredNotFound.Unwrap = none
      ∧ declaredNotFound.chain = [declaredNotFound]
      ∧ GoError.ErrNotFound ∉ declaredNotFound.chain
      ∧ declaredNotFound.Is GoError.ErrNotFound = true
      ∧ ((NewStorage (MockStorage ("", some declaredNotFound) none none)).Get ()
          "user@example.org").2 = (OAuthToken.zero, none)
      ∧ ((NewStorage (MockStorage ("", none) none (some declaredNotFound))).Delete ()
          "user@example.org").2 = none := by
  refine ⟨by decide, rfl, rfl, by decide, rfl, rfl, rfl⟩

/-- C14, amended. The not-found condition is recognised along the chain of the
keyring's error, as `errors.Is` walks it.  When some error of the chain is
`keyring.ErrNotFound`, which is so for every error that wraps it, or has a method `Is`
that reports `keyring.ErrNotFound`, `Storage.Get` given the error returns the zero
token and no error, and `Storage.Delete` given it returns no error.  When no error of
the chain is `keyring.ErrNotFound` and none has a method `Is` that reports it,
`Storage.Get` returns the zero token and the error itself, and `Storage.Delete` returns
the error itself: neither turns it into success. -/
theorem Storage.not_found_chain {σ : Type} (s : Storage σ) (st : σ) (key : String)
    (err : GoError) :
    ((∃ e ∈ err.chain, e = GoError.ErrNotFound ∨ e.Is GoError.ErrNotFound = true) →
        ((s.storage.Get st key).2.2 = some err → (s.Get st key).2 = (OAuthToken.zero, none))
          ∧ ((s.storage.Delete st key).2 = some err → (s.Delete st key).2 = none))
      ∧ ((∀ e ∈ err.chain, e ≠ GoError.ErrNotFound ∧ e.Is GoError.ErrNotFound = false) →
        ((s.storage.Get st key).2.2 = some err
            → (s.Get st key).2 = (OAuthToken.zero, some err))
          ∧ ((s.storage.Delete st key).2 = some err → (s.Delete st key).2 = some err)) := by
  constructor
  · intro h
    have hnf : errorsIs err GoError.ErrNotFound = true := (errorsIs_iff_chain _ _).2 h
    constructor
    · intro hget; simp [Storage.Get, hget, hnf]
    · intro hdel; simp [Storage.Delete, hdel, hnf]
  · intro h
    have hnf : errorsIs err GoError.ErrNotFound = false := by
      cases hc : errorsIs err GoError.ErrNotFound with
      | false => rfl
      | true =>
        obtain ⟨e, he, h1⟩ := (errorsIs_iff_chain _ _).1 hc
        rcases h1 with h1 | h1
        · exact absurd h1 (h e he).1
        · rw [(h e he).2] at h1; exact absurd h1 (by decide)
    constructor
    · intro hget; simp [Storage.Get, hget, hnf]
    · intro hdel; simp [Storage.Delete, hdel, hnf]

/-- C14 amended, at an error that wraps `keyring.ErrNotFound`, which both methods turn
into success, and at the error "get error" of the tests, which both return as it is. -/
theorem Storage.not_found_chain_witness :
    (((NewStorage (MockStorage ("", some wrappedNotFound) none (some wrappedNotFound))).Get ()
          "user@example.org").2 = (OAuthToken.zero, none)
      ∧ ((NewStorage (MockStorage ("", some wrappedNotFound) none (some wrappedNotFound))).Delete ()
          "user@example.org").2 = none)
    ∧ (((NewStorage (MockStorage ("", some (GoError.errorString "get error")) none
            (some (GoError.errorString "get error")))).Get () "user@example.org").2
          = (OAuthToken.zero, some (GoError.errorString "get error"))
      ∧ ((NewStorage (MockStorage ("", some (GoError.errorString "get error")) none
            (some (GoError.errorString "get error")))).Delete () "user@example.org").2
          = some (GoError.errorString "get error")) :=
  ⟨⟨((Storage.not_found_chain _ () "user@example.org" wrappedNotFound).1
        ⟨GoError.ErrNotFound, by decide, Or.inl rfl⟩).1 rfl,
    ((Storage.not_found_chain _ () "user@example.org" wrappedNotFound).1
        ⟨GoError.ErrNotFound, by decide, Or.inl rfl⟩).2 rfl⟩,
   ⟨((Storage.not_found_chain _ () "user@example.org" (GoError.errorString "get error")).2
        (by decide)).1 rfl,
    ((Storage.not_found_chain _ () "user@example.org" (GoError.errorString "get error")).2
        (by decide)).2 rfl⟩⟩

end Keychain
